import Mathlib

/-!
# Verification of the test_dataset_generator pipeline

A shallow embedding, in Lean 4, of the curation pipeline in
`scripts/image_transform_pipeline.py` and the transform engine in
`scripts/media_processes.py`, together with proofs and refutations of the
specification's testable properties.

Modelling conventions:
* Python strings are Lean `String`s; where character-level reasoning is
  needed we work on `String.data : List Char`.
* Filesystem paths manipulated by the orchestrator are lists of path
  components (`Path := List String`); the filesystem itself is an
  association list from paths to file contents (`Bytes := List Nat`).
* PIL / ffmpeg image processing is abstracted by an oracle
  `transform : String → Bytes → Option Bytes` (simulation name and input
  bytes to output bytes; `none` models a processing failure, which the
  Python code catches and logs).  The parts of the transforms that the
  claims mention (byte-for-byte document copies, output sizes, save
  parameters, temp-file names) are modelled explicitly from the source.
* Python float arithmetic in the resize computations (`int(w * scale)`,
  `int(width / 0.8)`, ...) is modelled by exact rational arithmetic with
  floor, i.e. Nat division; the claims under test all carry an explicit
  1-pixel rounding tolerance.
-/

namespace Pipeline

/-! ## Character and string helpers (Python `str.lower`, `os.path.splitext`) -/

/-- ASCII lower-casing of one character, as Python `str.lower` acts on the
ASCII file extensions that occur in this pipeline. -/
def lowerChar (c : Char) : Char :=
  if 'A' ≤ c ∧ c ≤ 'Z' then Char.ofNat (c.toNat + 32) else c

/-- Python `s.lower()` (restricted to ASCII, which covers every extension
string the pipeline manipulates). -/
def lowerStr (s : String) : String :=
  ⟨s.data.map lowerChar⟩

/-- The basename of a path string: the characters after the last `'/'`
(`os.path` keeps everything after the final separator).  Computed on the
reversed character list. -/
def basenameChars (p : List Char) : List Char :=
  (p.reverse.takeWhile (· ≠ '/')).reverse

/-- The directory prefix of a path string, including the trailing `'/'`:
everything that `basenameChars` drops. -/
def dirPrefixChars (p : List Char) : List Char :=
  p.take (p.length - (basenameChars p).length)

/-- Model of `posixpath.splitext` restricted to a basename (no `'/'`).
The extension starts at the last `'.'`, provided some character strictly
before that dot differs from `'.'` (Python's guard that a leading group of
dots, as in `".bashrc"`, is not an extension).  Returns (root, ext). -/
def pySplitextBase (base : List Char) : List Char × List Char :=
  let extRevLen := (base.reverse.takeWhile (· ≠ '.')).length
  if extRevLen < base.length then
    let stem := base.take (base.length - extRevLen - 1)
    if stem.any (· ≠ '.') then (stem, base.drop stem.length)
    else (base, [])
  else (base, [])

/-- `os.path.splitext p` — the split is computed on the basename only and
the directory prefix is carried into the root. -/
def pySplitext (p : List Char) : List Char × List Char :=
  let b := pySplitextBase (basenameChars p)
  (dirPrefixChars p ++ b.1, b.2)

/-- `os.path.splitext(s)[0]` on strings. -/
def splitextRoot (s : String) : String := ⟨(pySplitext s.data).1⟩

/-- `os.path.splitext(s)[1]` on strings. -/
def splitextExt (s : String) : String := ⟨(pySplitext s.data).2⟩

/-! ## The profile catalog (`image_transform_pipeline.py`) -/

/-- `IMAGE_EXTENSIONS` (line 13). -/
def IMAGE_EXTENSIONS : List String :=
  [".jpg", ".jpeg", ".png", ".webp", ".tiff", ".heic"]

/-- `ALL_SIMULATIONS` (lines 15–21): the fixed, ordered profile catalog. -/
def ALL_SIMULATIONS : List String :=
  ["original", "whatsapp_document", "signal_document", "telegram_document",
   "facebook", "instagram_feed", "instagram_story", "instagram_reel", "tiktok",
   "whatsapp_standard_media", "whatsapp_high_media",
   "signal_standard_media", "signal_high_media",
   "telegram_media"]

/-- The keys of `all_simulations_map` (lines 173–192) in
`run_simulations_for_image`: every profile the per-profile loop can
dispatch (everything but `"original"`, which is handled separately). -/
def simulationKeys : List String :=
  ["facebook", "instagram_feed", "instagram_story", "instagram_reel", "tiktok",
   "whatsapp_standard_media", "whatsapp_high_media", "whatsapp_document",
   "signal_standard_media", "signal_high_media", "signal_document",
   "telegram_media", "telegram_document"]

/-- Substring containment on character lists: does `pat` occur
contiguously inside the list? -/
def hasSubstr (pat : List Char) : List Char → Bool
  | [] => pat.isEmpty
  | c :: rest => pat.isPrefixOf (c :: rest) || hasSubstr pat rest

/-- `'document' in sim_name` (line 204): substring containment. -/
def hasDocument (s : String) : Bool :=
  hasSubstr "document".data s.data

/-- `sim_name.split('_')[0]` (line 216): the characters before the first
underscore (the whole name when there is none) — the platform family
directory used by the simulator for its temporary output. -/
def platformOf (s : String) : String :=
  ⟨s.data.takeWhile (· ≠ '_')⟩

/-- One-hot encoding over the catalog:
`[1 if sim == name else 0 for sim in ALL_SIMULATIONS]` (lines 168 and 227). -/
def oneHotSims (name : String) : List Nat :=
  ALL_SIMULATIONS.map (fun sim => if sim = name then 1 else 0)

/-! ## Resize arithmetic of the transform engine (`media_processes.py`) -/

/-- Parameters of a `PIL.Image.save` call, as far as the spec mentions
them. -/
structure SaveParams where
  format : String
  quality : Nat
  subsampling : Nat
  deriving Repr, DecidableEq

/-- The resize step of `SocialMediaSimulator.facebook` (lines 67–74):
if the larger dimension exceeds 2048, scale both dimensions by
`2048 / max(width, height)` and truncate (`int(...)`). -/
def facebookNewSize (w h : Nat) : Nat × Nat :=
  let maxDimension := 2048
  if maxDimension < max w h then
    (w * maxDimension / max w h, h * maxDimension / max w h)
  else (w, h)

/-- The image branch of `SocialMediaSimulator.facebook`: resize, then
`save(..., "JPEG", quality=85, optimize=True, subsampling=0)` (line 79). -/
def facebookProcess (w h : Nat) : (Nat × Nat) × SaveParams :=
  (facebookNewSize w h, ⟨"JPEG", 85, 0⟩)

/-- Result of the `post_type='feed'` image branch of
`SocialMediaSimulator.instagram` (lines 104–124): the crop box applied (if
any), the size after cropping, and the final size after scaling to the
target width. -/
structure FeedResult where
  cropBox : Option (Nat × Nat × Nat × Nat)
  afterCrop : Nat × Nat
  final : Nat × Nat
  save : SaveParams
  deriving Repr, DecidableEq

/-- `SocialMediaSimulator.instagram` with `post_type='feed'` on an image of
size `(w, h)`.  `aspect_ratio < 0.8` is `w / h < 4/5`, i.e. `5*w < 4*h`;
`aspect_ratio > 1.91` is `w / h > 191/100`, i.e. `100*w > 191*h`;
`int(width / 0.8)` is `⌊5*w/4⌋` and `int(height * 1.91)` is
`⌊191*h/100⌋`; the final rescale computes
`int(target_width / w' * h') = ⌊1080*h'/w'⌋` and resizes to
`(1080, that)`.  The image is saved with
`"JPEG", quality=80, optimize=True, subsampling=0` (line 130). -/
def instagramFeed (w h : Nat) : FeedResult :=
  let targetWidth := 1080
  if 5 * w < 4 * h then
    let newHeight := 5 * w / 4
    let top := (h - newHeight) / 2
    let box := (0, top, w, top + newHeight)
    let sz := (w, newHeight)
    { cropBox := some box, afterCrop := sz,
      final := (targetWidth, targetWidth * sz.2 / sz.1), save := ⟨"JPEG", 80, 0⟩ }
  else if 191 * h < 100 * w then
    let newWidth := 191 * h / 100
    let left := (w - newWidth) / 2
    let box := (left, 0, left + newWidth, h)
    let sz := (newWidth, h)
    { cropBox := some box, afterCrop := sz,
      final := (targetWidth, targetWidth * sz.2 / sz.1), save := ⟨"JPEG", 80, 0⟩ }
  else
    { cropBox := none, afterCrop := (w, h),
      final := (targetWidth, targetWidth * h / w), save := ⟨"JPEG", 80, 0⟩ }

/-! ## Local filesystem discovery (`get_standard_paths`) -/

/-- A path component is hidden when it begins with a dot.  Python's `glob`
wildcards never match such a name (`glob._ishidden`): `*` skips dot-files
and recursive `**` neither lists nor descends into dot-directories. -/
def isHidden (comp : String) : Bool :=
  match comp.data with
  | '.' :: _ => true
  | _ => false

/-- One match of the pattern `os.path.join(directory, '**', '*' + ext)`
with `recursive=True`, against a filesystem entry whose path relative to
the scanned root has components `rel` (directory components first, file
name last).  `**` matches zero or more directory segments but skips hidden
ones, so no directory component may begin with a dot; `*<ext>` matches the
file name when it is not hidden either and its characters end in the
characters of `ext` — case-sensitively, since POSIX `glob` does not fold
case.  (The literal scanned root itself is outside the wildcards and so
unconstrained.) -/
def globMatch (ext : String) (rel : List String) : Bool :=
  rel.all (fun comp => !isHidden comp)
    && ext.data.isSuffixOf (rel.getLastD "").data

/-- `get_standard_paths` (lines 132–137): for each extension in
`IMAGE_EXTENSIONS` run `glob(os.path.join(directory, '**', '*'+ext),
recursive=True)` and concatenate the results.  The filesystem enumeration
under the scanned root is modelled by the list `files` of root-relative
paths, each a list of components. -/
def get_standard_paths (files : List (List String)) : List (List String) :=
  IMAGE_EXTENSIONS.foldl
    (fun acc ext => acc ++ files.filter (fun f => globMatch ext f)) []

/-! ## The unique base name (`run_simulations_for_image`, lines 147–153) -/

/-- The unique base name (lines 149–150):
`os.path.splitext(relative_path)[0].replace(os.sep, '_')`. -/
def uniqueBase (relPath : String) : String :=
  ⟨(pySplitext relPath.data).1.map (fun c => if c = '/' then '_' else c)⟩

/-- The final output filename for one profile (line 206):
`f"{unique_base}_{sim_name}{processed_ext}"`. -/
def newFilename (ub simName processedExt : String) : String :=
  ub ++ "_" ++ simName ++ processedExt

/-- Directory components joined with a trailing separator character:
`joinTrail c ["a","b"] = 'a' :: c :: 'b' :: c :: []`. -/
def joinTrail (c : Char) (dirs : List String) : List Char :=
  (dirs.map (fun d => d.data ++ [c])).flatten

/-- A relative path assembled from directory components, a filename stem
and an extension body: `d₁/…/dₙ/stem.ext`. -/
def relPathOf (dirs : List String) (stem extBody : String) : String :=
  ⟨joinTrail '/' dirs ++ stem.data ++ '.' :: extBody.data⟩

/-! ## Filesystem model

The orchestrator's effects on disk.  Paths are lists of components
(`os.path.join` concatenates components); the filesystem is an association
list from paths to file contents. -/

abbrev Bytes := List Nat

abbrev Path := List String

abbrev FS := List (Path × Bytes)

/-- Contents of the file at `p`, if it exists. -/
def fsLookup : FS → Path → Option Bytes
  | [], _ => none
  | (q, b) :: rest, p => if q = p then some b else fsLookup rest p

/-- `os.path.exists`. -/
def fsExists (fs : FS) (p : Path) : Bool :=
  (fsLookup fs p).isSome

/-- Create or overwrite the file at `p`. -/
def fsWrite : FS → Path → Bytes → FS
  | [], p, b => [(p, b)]
  | (q, c) :: rest, p, b =>
    if q = p then (p, b) :: rest else (q, c) :: fsWrite rest p b

/-- Delete the file at `p` (no-op if absent). -/
def fsRemove (fs : FS) (p : Path) : FS :=
  fs.filter (fun e => decide (e.1 ≠ p))

/-- `shutil.move`: relocate `src` to `dst` (the orchestrator only calls it
after checking that `src` exists). -/
def fsMove (fs : FS) (src dst : Path) : FS :=
  match fsLookup fs src with
  | some b => fsWrite (fsRemove fs src) dst b
  | none => fs

/-! ## The curation orchestrator (`run_simulations_for_image`) -/

/-- One sampled media item: the dataset root directory and the item's path
relative to that root (last component = the file name).  `file_path` in the
source is the concatenation; `os.path.relpath(file_path, directory)`
recovers `rel` and `os.path.basename` its last component. -/
structure Item where
  root : Path
  rel : Path
  deriving Repr, DecidableEq

/-- The absolute path of the item. -/
def Item.filePath (it : Item) : Path := it.root ++ it.rel

/-- `original_filename = os.path.basename(file_path)` (line 27). -/
def Item.originalFilename (it : Item) : String := it.rel.getLastD ""

/-- The relative path as a string, as `os.path.relpath` returns it. -/
def Item.relString (it : Item) : String := String.intercalate "/" it.rel

/-- `get_media_info` (lines 24–43): media type is always `"image"`; for the
`SAFE` dataset the source model is the first component of the relative
directory path (which is `"."` when the item sits directly under the root)
and the remaining components are the detail. -/
def get_media_info (it : Item) (datasetName : String) :
    String × String × Option String × Option String :=
  if datasetName = "SAFE" then
    match it.rel.dropLast with
    | [] => ("image", it.originalFilename, some ".", none)
    | [d] => ("image", it.originalFilename, some d, none)
    | d :: rest => ("image", it.originalFilename, some d,
        some (String.intercalate "/" rest))
  else ("image", it.originalFilename, none, none)

/-- One row of the metadata ledger: the eight identity columns of the CSV
(lines 167/226) plus the trailing one-hot vector (lines 168/227).
`simName` records which profile produced the row. -/
structure Row where
  original_path : Path
  original_filename : String
  media_type : String
  authenticity : String
  source_model : Option String
  source_model_details : Option String
  processed_filename : String
  processed_path : Path
  simName : String
  oneHot : List Nat
  deriving Repr, DecidableEq

/-- A pipeline run configuration.  `transform` abstracts the PIL/ffmpeg
image processing performed by the non-document simulator branches (`none`
models a processing failure, which the simulator catches and logs).
The CSV writer is passed separately, like `csv_writer` in the source: the
oracle `w : Row → Bool` below says whether `csv_writer.writerow` succeeds
on a given row (an exception raised by a failing append is `w row = false`). -/
structure Cfg where
  curatedDir : Path
  datasetName : String
  authenticity : String
  simulationsToRun : List String
  transform : String → Bytes → Option Bytes

/-- `processed_ext = original_ext if 'document' in sim_name else ".jpg"`
(line 204). -/
def pextOf (it : Item) (simName : String) : String :=
  if hasDocument simName then splitextExt it.originalFilename else ".jpg"

/-- The deterministic final output path of one (item, profile) pair
(lines 205–207): `<curated>/<sim>/<uniqueBase>_<sim><processedExt>`. -/
def finalPath (cfg : Cfg) (it : Item) (simName : String) : Path :=
  cfg.curatedDir ++ [simName,
    newFilename (uniqueBase it.relString) simName (pextOf it simName)]

/-- The final path of the `"original"` copy (lines 158–160):
`<curated>/originals/<uniqueBase>_original<ext>`. -/
def originalPath (cfg : Cfg) (it : Item) : Path :=
  cfg.curatedDir ++ ["originals",
    uniqueBase it.relString ++ "_original" ++ splitextExt it.originalFilename]

/-- The simulator's shared per-platform temporary output path
(lines 216–217 and the `output_path` of each simulator method):
`<curated>/<platform>/TEMPOUT<ext>`. -/
def tempPath (cfg : Cfg) (simName : String) (ext : String) : Path :=
  cfg.curatedDir ++ [platformOf simName, "TEMPOUT" ++ ext]

/-- One CSV data row (lines 167–169 and 226–228): the eight identity
columns from `get_media_info` plus the one-hot simulation vector. -/
def mkRow (cfg : Cfg) (it : Item) (simName fname : String) (fpath : Path) :
    Row :=
  let info := get_media_info it cfg.datasetName
  { original_path := it.filePath,
    original_filename := it.originalFilename,
    media_type := info.1, authenticity := cfg.authenticity,
    source_model := info.2.2.1, source_model_details := info.2.2.2,
    processed_filename := fname, processed_path := fpath,
    simName := simName, oneHot := oneHotSims simName }

/-- One call of a `SocialMediaSimulator` method (`media_processes.py`).
Every method either checks `os.path.exists(input_path)` up front
(whatsapp/signal/telegram/tiktok) or fails inside a caught
`Image.open` (facebook/instagram), so a missing input yields no write and
a normal return.  Document branches (`upload_type='document'` /
`as_document=True`) copy the input bytes verbatim to
`<base>/<platform>/TEMPOUT<ext.lower()>`; image branches write the
transformed bytes to `<base>/<platform>/TEMPOUT.jpg` when processing
succeeds, and nothing when it fails. -/
def simulatorRun (cfg : Cfg) (simName : String) (inputPath : Path)
    (inputFilename : String) (fs : FS) : FS :=
  match fsLookup fs inputPath with
  | none => fs
  | some content =>
    if hasDocument simName then
      fsWrite fs (tempPath cfg simName (lowerStr (splitextExt inputFilename)))
        content
    else
      match cfg.transform simName content with
      | some out => fsWrite fs (tempPath cfg simName ".jpg") out
      | none => fs

/-- The per-profile body of `run_simulations_for_image` (lines 194–230):
skip unknown profiles; compute the deterministic final path
`<curated>/<sim>/<uniqueBase>_<sim><processedExt>` with
`processedExt = original_ext if 'document' in sim_name else '.jpg'`; if it
already exists, skip; otherwise run the simulator, and if the simulator's
temp output `<curated>/<platform>/TEMPOUT<processedExt>` exists, move it to
the final path and append one ledger row (the whole body sits in a
`try/except`, so a failing `writerow` loses the row but keeps the moved
file and the loop continues). -/
def stepSim (cfg : Cfg) (w : Row → Bool) (it : Item) (fs : FS) (simName : String) :
    FS × List Row :=
  if simName ∈ simulationKeys then
    let fname := newFilename (uniqueBase it.relString) simName (pextOf it simName)
    let fpath := finalPath cfg it simName
    if fsExists fs fpath then (fs, [])
    else
      let fs1 := simulatorRun cfg simName it.filePath it.originalFilename fs
      let tp := tempPath cfg simName (pextOf it simName)
      if fsExists fs1 tp then
        let fs2 := fsMove fs1 tp fpath
        let row := mkRow cfg it simName fname fpath
        if w row then (fs2, [row]) else (fs2, [])
      else (fs1, [])
  else (fs, [])

/-- The `"original"` block of `run_simulations_for_image` (lines 155–171):
if requested, copy the unmodified item to
`<curated>/originals/<uniqueBase>_original<ext>` unless that file already
exists, and append one ledger row; a failing copy (missing input) or a
failing `writerow` is caught by the surrounding `except`. -/
def stepOriginal (cfg : Cfg) (w : Row → Bool) (it : Item) (fs : FS) : FS × List Row :=
  if "original" ∈ cfg.simulationsToRun then
    let fname := uniqueBase it.relString ++ "_original"
      ++ splitextExt it.originalFilename
    let fpath := originalPath cfg it
    if fsExists fs fpath then (fs, [])
    else
      match fsLookup fs it.filePath with
      | none => (fs, [])
      | some content =>
        let fs1 := fsWrite fs fpath content
        let row := mkRow cfg it "original" fname fpath
        if w row then (fs1, [row]) else (fs1, [])
  else (fs, [])

/-- The `for sim_name in simulations_to_run` loop (lines 194–230):
`"original"` entries are skipped (already handled), each other entry runs
`stepSim`, threading the filesystem and appending the emitted rows in
order. -/
def runSims (cfg : Cfg) (w : Row → Bool) (it : Item) : List String → FS → FS × List Row
  | [], fs => (fs, [])
  | s :: rest, fs =>
    if s = "original" then runSims cfg w it rest fs
    else
      let r := stepSim cfg w it fs s
      let k := runSims cfg w it rest r.1
      (k.1, r.2 ++ k.2)

/-- `run_simulations_for_image`: the `"original"` block, then the loop over
`simulations_to_run`. -/
def runImage (cfg : Cfg) (w : Row → Bool) (it : Item) (fs : FS) : FS × List Row :=
  let o := stepOriginal cfg w it fs
  let k := runSims cfg w it cfg.simulationsToRun o.1
  (k.1, o.2 ++ k.2)

/-- The local-storage processing loop of `run_pipeline` (lines 300–323,
`else` branch): run `run_simulations_for_image` on each discovered item in
order, accumulating ledger rows. -/
def runAll (cfg : Cfg) (w : Row → Bool) : List Item → FS → FS × List Row
  | [], fs => (fs, [])
  | it :: rest, fs =>
    let r := runImage cfg w it fs
    let k := runAll cfg w rest r.1
    (k.1, r.2 ++ k.2)

/-! ## Auxiliary notions for the idempotency analysis -/

/-- Over-approximation of the set of paths a run can ever delete: only
`shutil.move` deletes, and it moves away only the shared per-platform
`TEMPOUT` files (document profiles live on the whatsapp/signal/telegram
platforms and can carry any extension, the remaining platforms only ever
hold `TEMPOUT.jpg`). -/
def removable (cfg : Cfg) (p : Path) : Prop :=
  ∃ d e, p = cfg.curatedDir ++ [d, "TEMPOUT" ++ e] ∧
    (d ∈ ["whatsapp", "signal", "telegram"] ∨
     (d ∈ ["facebook", "instagram", "tiktok"] ∧ e = ".jpg"))

/-- The post-state of one (item, profile) pair after its own step has run:
either the final artifact is on disk, or the pair's temp slot is empty and
the pair deterministically re-fails (missing input, or a non-document
profile whose transform fails on the input's bytes). -/
def Done (cfg : Cfg) (it : Item) (s : String) (fs : FS) : Prop :=
  fsExists fs (finalPath cfg it s) = true ∨
  (fsExists fs (tempPath cfg s (pextOf it s)) = false ∧
   (fsLookup fs it.filePath = none ∨
    (hasDocument s = false ∧
     ∀ c, fsLookup fs it.filePath = some c → cfg.transform s c = none)))

/-- The analogous post-state for the `"original"` pair. -/
def DoneO (cfg : Cfg) (it : Item) (fs : FS) : Prop :=
  fsExists fs (originalPath cfg it) = true ∨ fsLookup fs it.filePath = none

/-- The item's filename extension is already lowercase (true of every item
enumerated by the pipeline's own discovery, whose allow-list is lowercase
and matched case-sensitively). -/
abbrev lcExt (it : Item) : Prop :=
  lowerStr (splitextExt it.originalFilename) = splitextExt it.originalFilename

/-- Every (item, profile) pair of this item is settled in state `fs`: a
rerun will take a skip or deterministic-failure branch for each of them. -/
def ItemDone (cfg : Cfg) (it : Item) (fs : FS) : Prop :=
  ("original" ∈ cfg.simulationsToRun → DoneO cfg it fs) ∧
  ∀ s ∈ cfg.simulationsToRun, s ≠ "original" → s ∈ simulationKeys →
    Done cfg it s fs

/-! ## The sampler (`get_non_huggingface_dataset_paths`,
`get_hf_dataset_paths`) -/

/-- The global `random` module, abstracted: a deterministic pseudo-random
generator with explicit state passing.  `seed n` is the state set by
`random.seed(n)` (line 11 executes `random.seed(42)` once at import);
`sample st population k` is the selection `random.sample(population, k)`
draws from state `st`, together with the advanced state.  CPython's
Mersenne Twister is exactly such a deterministic state machine; its
internals are opaque here. -/
structure RandomSampler where
  seed : Nat → Nat
  sample : {α : Type} → Nat → List α → Nat → List α × Nat

/-- A local dataset root as the sampler sees it: the model subdirectories
in `os.scandir` enumeration order (an order the OS does not fix), and the
recursive-glob file list of each subdirectory. -/
structure LocalSource where
  dirs : List String
  filesOf : String → List String

/-- `get_non_huggingface_dataset_paths` (lines 103–130): iterate over
`sorted(model_dirs)`; for each directory glob its image files; skip empty
directories; take the whole group when it is smaller than the target,
otherwise draw `random.sample(files, target)`.  The RNG state is threaded
explicitly (the source uses the process-global `random` state). -/
def get_non_huggingface_dataset_paths (rng : RandomSampler)
    (src : LocalSource) (target : Nat) (st : Nat) : List String × Nat :=
  (src.dirs.mergeSort).foldl
    (fun acc d =>
      let files := src.filesOf d
      if files = [] then acc
      else if files.length < target then (acc.1 ++ files, acc.2)
      else
        let r := rng.sample acc.2 files target
        (acc.1 ++ r.1, r.2))
    ([], st)

/-- The sampling core of `get_hf_dataset_paths` (lines 61–96): collect the
indices whose category list contains the target class id; if none qualify
(or filtering was skipped) fall back to all indices; sample when the valid
set exceeds the target, else take it whole; return
`(f"{split}_{idx}.jpg", idx)` pairs. -/
def get_hf_dataset_paths (rng : RandomSampler) (labels : List (List Nat))
    (targetId : Nat) (split : String) (target : Nat) (st : Nat) :
    List (String × Nat) × Nat :=
  let validIdx := (List.range labels.length).filter
    (fun i => decide (targetId ∈ labels.getD i []))
  let valid := if validIdx = [] then List.range labels.length else validIdx
  let sampled := if target < valid.length
    then rng.sample st valid target else (valid, st)
  (sampled.1.map (fun idx => (split ++ "_" ++ toString idx ++ ".jpg", idx)),
   sampled.2)

/-- A concrete deterministic sampler instance for witnesses. -/
def fixRng : RandomSampler :=
  ⟨fun n => n, fun st pop k => (pop.take k, st + 1)⟩

/-- A concrete glob result for witnesses. -/
def fixFilesOf : String → List String := fun d => [d ++ "/f.jpg"]

/-- Two enumerations of the same local source in different scandir
orders. -/
def fixSrc1 : LocalSource := ⟨["b", "a"], fixFilesOf⟩

/-- See `fixSrc1`. -/
def fixSrc2 : LocalSource := ⟨["a", "b"], fixFilesOf⟩

/-! ## Concrete run fixtures used in witnesses and counterexamples -/

/-- A small run configuration: curated output under `out/`, all profiles of
interest requested, and a transform that always succeeds (prepending a
marker byte). -/
def fixCfg : Cfg :=
  ⟨["out"], "SAFE", "synthetic",
   ["original", "facebook", "whatsapp_document", "tiktok"],
   fun _ b => some (0 :: b)⟩

/-- One well-behaved item `data/m/x.jpg`. -/
def fixItem : Item := ⟨["data"], ["m", "x.jpg"]⟩

/-- A filesystem holding just the fixture item. -/
def fixFs : FS := [(["data", "m", "x.jpg"], [1, 2, 3])]

/-- A configuration running the two whatsapp profiles, used to exhibit the
mixed-case-extension corner. -/
def upperCfg : Cfg :=
  ⟨["out"], "D", "synthetic", ["whatsapp_document", "whatsapp_standard_media"],
   fun _ b => some (0 :: b)⟩

/-- An item whose extension is upper-case: `data/x.JPG`. -/
def upperItem : Item := ⟨["data"], ["x.JPG"]⟩

/-- A filesystem holding just the upper-case item. -/
def upperFs : FS := [(["data", "x.JPG"], [9])]

/-- A configuration whose transform always fails. -/
def staleCfg : Cfg :=
  ⟨["out"], "D", "synthetic", ["whatsapp_standard_media"], fun _ _ => none⟩

/-- An item whose file does not exist in the fixtures below. -/
def missingItem : Item := ⟨["data"], ["b.jpg"]⟩

/-- A filesystem containing only a stale leftover shared temp file. -/
def staleFs : FS := [(["out", "whatsapp", "TEMPOUT.jpg"], [7])]

/-! ## C7 / C8: resize contracts of the transform engine -/

/-- C7: For the facebook profile on an image of size (W,H) with
max(W,H) > 2048, the output's maximum dimension equals 2048 (here: exactly),
the aspect ratio W:H is preserved within rounding tolerance
(|W'·H − W·H'| < max(W,H), i.e. the cross-multiplied ratios differ by less
than one pixel's worth), and the image is saved as JPEG at quality 85. -/
theorem facebook_resize_contract (w h : Nat) (hw : 0 < w) (hh : 0 < h)
    (hbig : 2048 < max w h) :
    max (facebookProcess w h).1.1 (facebookProcess w h).1.2 = 2048 ∧
    |((facebookProcess w h).1.1 : Int) * h - w * (facebookProcess w h).1.2|
      < max w h ∧
    (facebookProcess w h).2 = ⟨"JPEG", 85, 0⟩ := by
  have hm : 0 < max w h := by omega
  have hfb : facebookNewSize w h = (w * 2048 / max w h, h * 2048 / max w h) := by
    simp only [facebookNewSize, if_pos hbig]
  have hproc : facebookProcess w h
      = ((w * 2048 / max w h, h * 2048 / max w h), ⟨"JPEG", 85, 0⟩) := by
    simp only [facebookProcess, hfb]
  rw [hproc]
  dsimp only
  refine ⟨?_, ?_, rfl⟩
  · rcases Nat.le_total h w with hle | hle
    · have hmax : max w h = w := max_eq_left hle
      rw [hmax]
      have h1 : w * 2048 / w = 2048 := by
        rw [Nat.mul_comm]; exact Nat.mul_div_cancel 2048 (by omega)
      have h2 : h * 2048 / w ≤ 2048 := by
        calc h * 2048 / w ≤ w * 2048 / w := Nat.div_le_div_right (by omega)
          _ = 2048 := h1
      rw [h1]; omega
    · have hmax : max w h = h := max_eq_right hle
      rw [hmax]
      have h1 : h * 2048 / h = 2048 := by
        rw [Nat.mul_comm]; exact Nat.mul_div_cancel 2048 (by omega)
      have h2 : w * 2048 / h ≤ 2048 := by
        calc w * 2048 / h ≤ h * 2048 / h := Nat.div_le_div_right (by omega)
          _ = 2048 := h1
      rw [h1]; omega
  · set m := max w h with hmdef
    have e1 : m * (w * 2048 / m) + w * 2048 % m = w * 2048 :=
      Nat.div_add_mod (w * 2048) m
    have e2 : m * (h * 2048 / m) + h * 2048 % m = h * 2048 :=
      Nat.div_add_mod (h * 2048) m
    have hr1 : w * 2048 % m < m := Nat.mod_lt _ hm
    have hr2 : h * 2048 % m < m := Nat.mod_lt _ hm
    have hwm : w ≤ m := le_max_left w h
    have hhm : h ≤ m := le_max_right w h
    set q1 := w * 2048 / m
    set q2 := h * 2048 / m
    set r1 := w * 2048 % m
    set r2 := h * 2048 % m
    have l1a : (m : Int) * q1 + r1 = (w : Int) * 2048 := by exact_mod_cast e1
    have l2a : (m : Int) * q2 + r2 = (h : Int) * 2048 := by exact_mod_cast e2
    have l1 : (m : Int) * q1 = (w : Int) * 2048 - r1 := by linarith
    have l2 : (m : Int) * q2 = (h : Int) * 2048 - r2 := by linarith
    have hkey : (m : Int) * ((q1 : Int) * h - w * q2)
        = (w : Int) * r2 - (r1 : Int) * h := by
      calc (m : Int) * ((q1 : Int) * h - w * q2)
          = ((m : Int) * q1) * h - (w : Int) * ((m : Int) * q2) := by ring
        _ = ((w : Int) * 2048 - r1) * h - (w : Int) * ((h : Int) * 2048 - r2) := by
            rw [l1, l2]
        _ = (w : Int) * r2 - (r1 : Int) * h := by ring
    have hmI : (0 : Int) < m := by exact_mod_cast hm
    have hb1 : (w : Int) * r2 - (r1 : Int) * h < m * m := by
      have : (w : Int) * r2 ≤ (m : Int) * r2 :=
        mul_le_mul_of_nonneg_right (by exact_mod_cast hwm) (by positivity)
      have h2' : (m : Int) * r2 < m * m :=
        mul_lt_mul_of_pos_left (by exact_mod_cast hr2) hmI
      have h3' : (0 : Int) ≤ (r1 : Int) * h := by positivity
      linarith
    have hb2 : -((m : Int) * m) < (w : Int) * r2 - (r1 : Int) * h := by
      have : (r1 : Int) * h ≤ (r1 : Int) * m :=
        mul_le_mul_of_nonneg_left (by exact_mod_cast hhm) (by positivity)
      have h2' : (r1 : Int) * m < m * m :=
        mul_lt_mul_of_pos_right (by exact_mod_cast hr1) hmI
      have h3' : (0 : Int) ≤ (w : Int) * r2 := by positivity
      linarith
    rw [abs_lt]
    constructor
    · have : (m : Int) * (-(m : Int)) < m * ((q1 : Int) * h - w * q2) := by
        rw [hkey]; linarith
      have := lt_of_mul_lt_mul_left this (le_of_lt hmI)
      linarith
    · have : (m : Int) * ((q1 : Int) * h - w * q2) < m * m := by
        rw [hkey]; linarith
      exact lt_of_mul_lt_mul_left this (le_of_lt hmI)

/-- Witness for C7: the spec's concrete scenario, a 4000×3000 input. -/
theorem facebook_resize_contract_witness :
    (0 < 4000 ∧ 0 < 3000 ∧ 2048 < max 4000 3000) ∧
    (max (facebookProcess 4000 3000).1.1 (facebookProcess 4000 3000).1.2 = 2048 ∧
     |((facebookProcess 4000 3000).1.1 : Int) * 3000
        - 4000 * (facebookProcess 4000 3000).1.2| < max 4000 3000 ∧
     (facebookProcess 4000 3000).2 = ⟨"JPEG", 85, 0⟩) :=
  ⟨by norm_num,
   facebook_resize_contract 4000 3000 (by norm_num) (by norm_num) (by norm_num)⟩

/-- C8: For `instagram_feed` on an image with aspect ratio below 0.8
(`5·W < 4·H`), the image is first center-cropped in height to aspect
ratio 0.8 — width unchanged, new height ⌊5W/4⌋ (so W : H' is 4 : 5 up to
less than one pixel), crop box vertically centered — and then scaled so its
width equals 1080 with proportional height ⌊1080·H'/W⌋.  Images whose
aspect ratio already lies in [0.8, 1.91] (`4·H ≤ 5·W` and
`100·W ≤ 191·H`) are not cropped, only scaled to width 1080. -/
theorem instagram_feed_contract (w h : Nat) (hw : 0 < w) (hh : 0 < h) :
    (5 * w < 4 * h →
      (instagramFeed w h).cropBox
        = some (0, (h - 5 * w / 4) / 2, w, (h - 5 * w / 4) / 2 + 5 * w / 4) ∧
      (instagramFeed w h).afterCrop = (w, 5 * w / 4) ∧
      4 * (5 * w / 4) ≤ 5 * w ∧ 5 * w < 4 * (5 * w / 4) + 4 ∧
      (instagramFeed w h).final = (1080, 1080 * (5 * w / 4) / w)) ∧
    (4 * h ≤ 5 * w → 100 * w ≤ 191 * h →
      (instagramFeed w h).cropBox = none ∧
      (instagramFeed w h).afterCrop = (w, h) ∧
      (instagramFeed w h).final = (1080, 1080 * h / w)) := by
  constructor
  · intro hcrop
    simp only [instagramFeed, if_pos hcrop, true_and, and_true]
    omega
  · intro h1 h2
    have hnc : ¬(5 * w < 4 * h) := by omega
    have hnc2 : ¬(191 * h < 100 * w) := by omega
    simp only [instagramFeed, if_neg hnc, if_neg hnc2, and_self, and_true, true_and]

/-- Witness for C8: the spec's 800×1600 scenario (cropped branch) and a
1000×1000 input (uncropped branch). -/
theorem instagram_feed_contract_witness :
    ((0 < 800 ∧ 0 < 1600 ∧ 5 * 800 < 4 * 1600) ∧
      ((instagramFeed 800 1600).cropBox
          = some (0, (1600 - 5 * 800 / 4) / 2, 800,
                  (1600 - 5 * 800 / 4) / 2 + 5 * 800 / 4) ∧
       (instagramFeed 800 1600).afterCrop = (800, 5 * 800 / 4) ∧
       4 * (5 * 800 / 4) ≤ 5 * 800 ∧ 5 * 800 < 4 * (5 * 800 / 4) + 4 ∧
       (instagramFeed 800 1600).final = (1080, 1080 * (5 * 800 / 4) / 800))) ∧
    ((4 * 1000 ≤ 5 * 1000 ∧ 100 * 1000 ≤ 191 * 1000) ∧
      ((instagramFeed 1000 1000).cropBox = none ∧
       (instagramFeed 1000 1000).afterCrop = (1000, 1000) ∧
       (instagramFeed 1000 1000).final = (1080, 1080 * 1000 / 1000))) :=
  ⟨⟨by norm_num,
    (instagram_feed_contract 800 1600 (by norm_num) (by norm_num)).1 (by norm_num)⟩,
   ⟨by norm_num,
    (instagram_feed_contract 1000 1000 (by norm_num) (by norm_num)).2
      (by norm_num) (by norm_num)⟩⟩

/-! ## C5: local filesystem discovery -/

/-- C5 counterexample: the file `photos/cat.JPG` (components
`["photos", "cat.JPG"]`, no hidden component) has extension `.JPG`, which
equals the allow-listed `.jpg` up to letter case, yet discovery returns
nothing: `glob` matching is case-sensitive, so the claimed
case-insensitive matching does not hold. -/
theorem discovery_not_case_insensitive :
    lowerStr (splitextExt "photos/cat.JPG") ∈ IMAGE_EXTENSIONS ∧
    (∀ comp ∈ (["photos", "cat.JPG"] : List String), isHidden comp = false) ∧
    get_standard_paths [["photos", "cat.JPG"]] = [] := by decide

private theorem mem_foldl_filter_globMatch (exts : List String)
    (files : List (List String)) (f : List String) (acc : List (List String)) :
    f ∈ exts.foldl
        (fun acc ext => acc ++ files.filter (fun g => globMatch ext g)) acc ↔
      f ∈ acc ∨ (f ∈ files ∧ ∃ ext ∈ exts, globMatch ext f = true) := by
  induction exts generalizing acc with
  | nil => simp
  | cons e es ih =>
    simp only [List.foldl_cons, ih, List.mem_append, List.mem_filter, List.mem_cons]
    constructor
    · rintro ((h | ⟨hf, he⟩) | ⟨hf, ext, hm, he⟩)
      · exact Or.inl h
      · exact Or.inr ⟨hf, e, Or.inl rfl, he⟩
      · exact Or.inr ⟨hf, ext, Or.inr hm, he⟩
    · rintro (h | ⟨hf, ext, (rfl | hm), he⟩)
      · exact Or.inl (Or.inl h)
      · exact Or.inl (Or.inr ⟨hf, he⟩)
      · exact Or.inr ⟨hf, ext, hm, he⟩

/-- C5 amended: local discovery follows POSIX `glob` semantics — a file
under the scanned root is enumerated iff no component of its relative
path is hidden (begins with a dot) and its file name ends with one of the
six lowercase allow-listed extensions exactly.  Matching is
case-SENSITIVE, so `cat.JPG` and `x.Png` are excluded; so are dot-files
such as `photos/.cat.jpg` and anything inside a dot-directory such as
`.cache/cat.jpg`. -/
theorem discovery_matches_exact_lowercase
    (files : List (List String)) (f : List String) :
    f ∈ get_standard_paths files ↔
      f ∈ files ∧ (∀ comp ∈ f, isHidden comp = false) ∧
        ∃ ext ∈ IMAGE_EXTENSIONS, ext.data <:+ (f.getLastD "").data := by
  rw [get_standard_paths, mem_foldl_filter_globMatch]
  simp only [List.not_mem_nil, false_or]
  constructor
  · rintro ⟨hf, ext, hm, hg⟩
    rw [globMatch, Bool.and_eq_true, List.all_eq_true] at hg
    refine ⟨hf, fun comp hc => ?_, ext, hm, List.isSuffixOf_iff_suffix.mp hg.2⟩
    have hcomp := hg.1 comp hc
    simpa using hcomp
  · rintro ⟨hf, hhid, ext, hm, hs⟩
    refine ⟨hf, ext, hm, ?_⟩
    rw [globMatch, Bool.and_eq_true, List.all_eq_true]
    exact ⟨fun comp hc => by simp [hhid comp hc],
      List.isSuffixOf_iff_suffix.mpr hs⟩

/-! ## C3: the unique base name -/

/-- C3 counterexample: the two distinct relative paths `a_b/img.jpg` and
`a/b/img.jpg` share the leaf filename `img.jpg`, lie in different
subdirectories, yet fold to the same unique base `a_b_img`, so their final
output filenames for the `facebook` profile coincide: the function is not
collision-free. -/
theorem unique_base_collision :
    ("a_b/img.jpg" : String) ≠ "a/b/img.jpg" ∧
    basenameChars "a_b/img.jpg".data = basenameChars "a/b/img.jpg".data ∧
    dirPrefixChars "a_b/img.jpg".data ≠ dirPrefixChars "a/b/img.jpg".data ∧
    uniqueBase "a_b/img.jpg" = uniqueBase "a/b/img.jpg" ∧
    newFilename (uniqueBase "a_b/img.jpg") "facebook" ".jpg"
      = newFilename (uniqueBase "a/b/img.jpg") "facebook" ".jpg" := by decide

private theorem takeWhile_append_all {p : Char → Bool} {xs ys : List Char}
    (h : ∀ x ∈ xs, p x = true) :
    (xs ++ ys).takeWhile p = xs ++ ys.takeWhile p := by
  induction xs with
  | nil => simp
  | cons a l ih =>
    rw [List.cons_append, List.takeWhile_cons_of_pos (h a (List.mem_cons_self a l)),
      ih fun x hx => h x (List.mem_cons_of_mem a hx), List.cons_append]

private theorem joinTrail_cons (c : Char) (d : String) (ds : List String) :
    joinTrail c (d :: ds) = d.data ++ c :: joinTrail c ds := by
  show (d.data ++ [c]) ++ joinTrail c ds = _
  simp

private theorem map_slash_eq_self {l : List Char} (h : '/' ∉ l) :
    l.map (fun c => if c = '/' then '_' else c) = l := by
  induction l with
  | nil => rfl
  | cons a t ih =>
    have ha : ¬(a = '/') := by
      intro hEq
      apply h
      rw [← hEq]
      exact List.mem_cons_self a t
    simp only [List.map_cons, if_neg ha,
      ih fun hm => h (List.mem_cons_of_mem a hm)]

private theorem map_slash_joinTrail : ∀ dirs : List String,
    (∀ d ∈ dirs, '/' ∉ d.data) →
    (joinTrail '/' dirs).map (fun c => if c = '/' then '_' else c)
      = joinTrail '_' dirs
  | [], _ => rfl
  | d :: ds, h => by
    have hd := h d (List.mem_cons_self d ds)
    have hds : ∀ e ∈ ds, '/' ∉ e.data := fun e he =>
      h e (List.mem_cons_of_mem d he)
    rw [joinTrail_cons, joinTrail_cons, List.map_append, List.map_cons,
      map_slash_joinTrail ds hds, map_slash_eq_self hd, if_pos rfl]

private theorem joinTrail_concat (c : Char) :
    ∀ dirs : List String, dirs ≠ [] → ∃ t, joinTrail c dirs = t ++ [c]
  | [], h => absurd rfl h
  | [d], _ => ⟨d.data, by simp [joinTrail]⟩
  | d :: e :: ds, _ => by
    obtain ⟨t, ht⟩ := joinTrail_concat c (e :: ds) (by simp)
    exact ⟨d.data ++ [c] ++ t, by simp [joinTrail] at ht ⊢; simp [ht]⟩

private theorem basenameChars_relPathOf (dirs : List String)
    (stem extBody : String)
    (hdir : ∀ d ∈ dirs, '/' ∉ d.data) (hstem : '/' ∉ stem.data)
    (hext : '/' ∉ extBody.data) :
    basenameChars (relPathOf dirs stem extBody).data
      = stem.data ++ '.' :: extBody.data := by
  have hrev : (relPathOf dirs stem extBody).data.reverse
      = (extBody.data.reverse ++ '.' :: stem.data.reverse)
        ++ (joinTrail '/' dirs).reverse := by
    show (joinTrail '/' dirs ++ stem.data ++ '.' :: extBody.data).reverse = _
    simp
  have hall : ∀ x ∈ extBody.data.reverse ++ '.' :: stem.data.reverse,
      (decide (x ≠ '/')) = true := by
    intro x hx
    simp only [List.mem_append, List.mem_reverse, List.mem_cons] at hx
    simp only [decide_eq_true_eq]
    rintro rfl
    rcases hx with hx | hx | hx
    · exact hext hx
    · exact absurd hx (by decide)
    · exact hstem hx
  have htail : ((joinTrail '/' dirs).reverse).takeWhile
      (fun c => decide (c ≠ '/')) = [] := by
    cases dirs with
    | nil => simp [joinTrail]
    | cons d ds =>
      obtain ⟨t, ht⟩ := joinTrail_concat '/' (d :: ds) (by simp)
      rw [ht]
      simp
  rw [basenameChars, hrev, takeWhile_append_all hall, htail]
  simp

private theorem pySplitext_relPathOf (dirs : List String)
    (stem extBody : String)
    (hdir : ∀ d ∈ dirs, '/' ∉ d.data) (hstem : '/' ∉ stem.data)
    (hstem2 : ∃ c ∈ stem.data, c ≠ '.') (hext : '/' ∉ extBody.data)
    (hext2 : '.' ∉ extBody.data) :
    (pySplitext (relPathOf dirs stem extBody).data).1
      = joinTrail '/' dirs ++ stem.data := by
  have hbase := basenameChars_relPathOf dirs stem extBody hdir hstem hext
  have hdirpre : dirPrefixChars (relPathOf dirs stem extBody).data
      = joinTrail '/' dirs := by
    rw [dirPrefixChars, hbase]
    have hlen : (relPathOf dirs stem extBody).data.length
        - (stem.data ++ '.' :: extBody.data).length
        = (joinTrail '/' dirs).length := by
      show (joinTrail '/' dirs ++ stem.data ++ '.' :: extBody.data).length - _ = _
      simp
    have hassoc : (relPathOf dirs stem extBody).data
        = joinTrail '/' dirs ++ (stem.data ++ '.' :: extBody.data) := by
      show (joinTrail '/' dirs ++ stem.data ++ '.' :: extBody.data) = _
      simp [List.append_assoc]
    rw [hlen, hassoc]
    exact List.take_left _ _
  have hsplitbase : pySplitextBase (stem.data ++ '.' :: extBody.data)
      = (stem.data, '.' :: extBody.data) := by
    have hrev : (stem.data ++ '.' :: extBody.data).reverse
        = extBody.data.reverse ++ '.' :: stem.data.reverse := by simp
    have hallext : ∀ x ∈ extBody.data.reverse, (decide (x ≠ '.')) = true := by
      intro x hx
      simp only [List.mem_reverse] at hx
      simp only [decide_eq_true_eq]
      rintro rfl
      exact hext2 hx
    have htw : (stem.data ++ '.' :: extBody.data).reverse.takeWhile
        (fun c => decide (c ≠ '.')) = extBody.data.reverse := by
      rw [hrev, takeWhile_append_all hallext]
      simp
    rw [pySplitextBase]
    simp only [htw, List.length_reverse, List.length_append, List.length_cons]
    rw [if_pos (by omega)]
    have hstemtake : (stem.data ++ '.' :: extBody.data).take
        (stem.data.length + (extBody.data.length + 1)
          - extBody.data.length - 1) = stem.data := by
      have : stem.data.length + (extBody.data.length + 1)
          - extBody.data.length - 1 = stem.data.length := by omega
      rw [this]
      exact List.take_left _ _
    rw [hstemtake]
    rw [if_pos]
    · have hdrop : (stem.data ++ '.' :: extBody.data).drop stem.data.length
          = '.' :: extBody.data := List.drop_left _ _
      rw [hdrop]
    · obtain ⟨c, hc, hcne⟩ := hstem2
      exact List.any_eq_true.mpr ⟨c, hc, by simp [hcne]⟩
  rw [pySplitext]
  simp only [hbase, hdirpre, hsplitbase]

private theorem uniqueBase_relPathOf (dirs : List String)
    (stem extBody : String)
    (hdir : ∀ d ∈ dirs, '/' ∉ d.data) (hstem : '/' ∉ stem.data)
    (hstem2 : ∃ c ∈ stem.data, c ≠ '.') (hext : '/' ∉ extBody.data)
    (hext2 : '.' ∉ extBody.data) :
    (uniqueBase (relPathOf dirs stem extBody)).data
      = joinTrail '_' dirs ++ stem.data := by
  show ((pySplitext (relPathOf dirs stem extBody).data).1.map
      (fun c => if c = '/' then '_' else c)) = _
  rw [pySplitext_relPathOf dirs stem extBody hdir hstem hstem2 hext hext2,
    List.map_append, map_slash_joinTrail dirs hdir, map_slash_eq_self hstem]

private theorem sep_split_inj (c : Char) :
    ∀ (a b s t : List Char), c ∉ a → c ∉ b →
      a ++ c :: s = b ++ c :: t → a = b ∧ s = t
  | [], [], s, t, _, _, h => by simpa using h
  | [], x :: b, s, t, _, hb, h => by
    simp only [List.nil_append, List.cons_append, List.cons.injEq] at h
    exact absurd (h.1 ▸ List.mem_cons_self x b) hb
  | x :: a, [], s, t, ha, _, h => by
    simp only [List.nil_append, List.cons_append, List.cons.injEq] at h
    exact absurd (h.1.symm ▸ List.mem_cons_self x a) ha
  | x :: a, y :: b, s, t, ha, hb, h => by
    simp only [List.cons_append, List.cons.injEq] at h
    obtain ⟨rfl, h2⟩ := h
    obtain ⟨h3, h4⟩ := sep_split_inj c a b s t
      (fun hm => ha (List.mem_cons_of_mem x hm))
      (fun hm => hb (List.mem_cons_of_mem x hm)) h2
    exact ⟨by rw [h3], h4⟩

private theorem joinTrail_inj (c : Char) :
    ∀ (d₁ d₂ : List String), (∀ d ∈ d₁, c ∉ d.data) →
      (∀ d ∈ d₂, c ∉ d.data) → joinTrail c d₁ = joinTrail c d₂ → d₁ = d₂
  | [], [], _, _, _ => rfl
  | [], e :: es, _, _, h => by
    exfalso
    rw [joinTrail_cons] at h
    have hne : e.data ++ c :: joinTrail c es ≠ [] := by simp
    exact hne h.symm
  | d :: ds, [], _, _, h => by
    exfalso
    rw [joinTrail_cons] at h
    have hne : d.data ++ c :: joinTrail c ds ≠ [] := by simp
    exact hne h
  | d :: ds, e :: es, h₁, h₂, h => by
    rw [joinTrail_cons, joinTrail_cons] at h
    obtain ⟨hde, hrest⟩ := sep_split_inj c d.data e.data _ _
      (h₁ d (List.mem_cons_self d ds)) (h₂ e (List.mem_cons_self e es)) h
    have : ds = es := joinTrail_inj c ds es
      (fun x hx => h₁ x (List.mem_cons_of_mem d hx))
      (fun x hx => h₂ x (List.mem_cons_of_mem e hx)) hrest
    rw [String.ext hde, this]

/-- C3 amended: the unique base name is collision-free for items that share
a leaf filename but lie in different subdirectories, PROVIDED no directory
component contains the underscore character (folding `/` to `_` can
otherwise conflate `a_b/img.jpg` with `a/b/img.jpg`); components must also
be separator-free, the extension dot-free, and the stem not entirely dots,
as is the case for ordinary filenames.  Under those conditions the final
output filenames for any profile are distinct. -/
theorem unique_base_collision_free (dirs₁ dirs₂ : List String)
    (stem extBody simName pext : String)
    (hd₁ : ∀ d ∈ dirs₁, '_' ∉ d.data ∧ '/' ∉ d.data)
    (hd₂ : ∀ d ∈ dirs₂, '_' ∉ d.data ∧ '/' ∉ d.data)
    (hstem : '/' ∉ stem.data) (hstem2 : ∃ c ∈ stem.data, c ≠ '.')
    (hext : '/' ∉ extBody.data) (hext2 : '.' ∉ extBody.data)
    (hne : dirs₁ ≠ dirs₂) :
    newFilename (uniqueBase (relPathOf dirs₁ stem extBody)) simName pext
      ≠ newFilename (uniqueBase (relPathOf dirs₂ stem extBody)) simName pext := by
  intro heq
  apply hne
  have hdata := congrArg String.data heq
  simp only [newFilename, String.data_append] at hdata
  have h1 := uniqueBase_relPathOf dirs₁ stem extBody
    (fun d hd => (hd₁ d hd).2) hstem hstem2 hext hext2
  have h2 := uniqueBase_relPathOf dirs₂ stem extBody
    (fun d hd => (hd₂ d hd).2) hstem hstem2 hext hext2
  rw [h1, h2] at hdata
  have hdata' : (joinTrail '_' dirs₁ ++ stem.data)
        ++ ("_".data ++ simName.data ++ pext.data)
      = (joinTrail '_' dirs₂ ++ stem.data)
        ++ ("_".data ++ simName.data ++ pext.data) := by
    simpa [List.append_assoc] using hdata
  have hub := List.append_cancel_right hdata'
  have hjoin := List.append_cancel_right hub
  exact joinTrail_inj '_' dirs₁ dirs₂
    (fun d hd => (hd₁ d hd).1) (fun d hd => (hd₂ d hd).1) hjoin

/-- Witness for C3 amended: underscore-free directories `a` and `b`, leaf
`img.jpg`, profile `facebook`. -/
theorem unique_base_collision_free_witness :
    ((∀ d ∈ ["a"], '_' ∉ d.data ∧ '/' ∉ d.data) ∧
     (∀ d ∈ ["b"], '_' ∉ d.data ∧ '/' ∉ d.data) ∧
     '/' ∉ "img".data ∧ (∃ c ∈ "img".data, c ≠ '.') ∧
     '/' ∉ "jpg".data ∧ '.' ∉ "jpg".data ∧ (["a"] : List String) ≠ ["b"]) ∧
    newFilename (uniqueBase (relPathOf ["a"] "img" "jpg")) "facebook" ".jpg"
      ≠ newFilename (uniqueBase (relPathOf ["b"] "img" "jpg")) "facebook" ".jpg" :=
  ⟨⟨by decide, by decide, by decide, by decide, by decide, by decide, by decide⟩,
   unique_base_collision_free ["a"] ["b"] "img" "jpg" "facebook" ".jpg"
     (by decide) (by decide) (by decide) (by decide) (by decide) (by decide)
     (by decide)⟩

/-! ## Filesystem lemmas -/

private theorem fsLookup_write_self (fs : FS) (p : Path) (b : Bytes) :
    fsLookup (fsWrite fs p b) p = some b := by
  induction fs with
  | nil => simp [fsWrite, fsLookup]
  | cons e rest ih =>
    obtain ⟨q, c⟩ := e
    by_cases h : q = p
    · simp [fsWrite, h, fsLookup]
    · simp [fsWrite, h, fsLookup, ih]

private theorem fsLookup_write_ne (fs : FS) (p q : Path) (b : Bytes)
    (h : q ≠ p) : fsLookup (fsWrite fs p b) q = fsLookup fs q := by
  induction fs with
  | nil => simp [fsWrite, fsLookup, Ne.symm h]
  | cons e rest ih =>
    obtain ⟨x, c⟩ := e
    by_cases hx : x = p
    · subst hx
      simp [fsWrite, fsLookup, Ne.symm h]
    · simp [fsWrite, hx, fsLookup, ih]

private theorem fsLookup_remove_self (fs : FS) (p : Path) :
    fsLookup (fsRemove fs p) p = none := by
  induction fs with
  | nil => simp [fsRemove, fsLookup]
  | cons e rest ih =>
    obtain ⟨x, c⟩ := e
    by_cases hx : x = p
    · simpa [fsRemove, hx] using ih
    · simpa [fsRemove, hx, fsLookup] using ih

private theorem fsLookup_remove_ne (fs : FS) (p q : Path) (h : q ≠ p) :
    fsLookup (fsRemove fs p) q = fsLookup fs q := by
  induction fs with
  | nil => simp [fsRemove]
  | cons e rest ih =>
    obtain ⟨x, c⟩ := e
    by_cases hx : x = p
    · subst hx
      rw [show fsRemove ((x, c) :: rest) x = fsRemove rest x by
            simp [fsRemove, List.filter_cons], ih]
      show fsLookup rest q = if x = q then some c else fsLookup rest q
      rw [if_neg (Ne.symm h)]
    · rw [show fsRemove ((x, c) :: rest) p = (x, c) :: fsRemove rest p by
            simp [fsRemove, List.filter_cons, hx]]
      show (if x = q then some c else fsLookup (fsRemove rest p) q)
          = if x = q then some c else fsLookup rest q
      by_cases hq : x = q
      · simp [hq]
      · simp [hq, ih]

private theorem fsLookup_move_other (fs : FS) (src dst q : Path)
    (h1 : q ≠ src) (h2 : q ≠ dst) :
    fsLookup (fsMove fs src dst) q = fsLookup fs q := by
  rw [fsMove]
  cases hl : fsLookup fs src with
  | none => rfl
  | some b => rw [fsLookup_write_ne _ _ _ _ h2, fsLookup_remove_ne _ _ _ h1]

private theorem fsLookup_move_dst (fs : FS) (src dst : Path) (b : Bytes)
    (h : fsLookup fs src = some b) :
    fsLookup (fsMove fs src dst) dst = some b := by
  rw [fsMove, h, fsLookup_write_self]

private theorem fsLookup_move_src (fs : FS) (src dst : Path)
    (h : src ≠ dst) : fsLookup (fsMove fs src dst) src = none := by
  rw [fsMove]
  cases hl : fsLookup fs src with
  | none => exact hl
  | some b => rw [fsLookup_write_ne _ _ _ _ h, fsLookup_remove_self]

/-! ## Facts about the profile catalog -/

private theorem keys_sub_all : ∀ s ∈ simulationKeys, s ∈ ALL_SIMULATIONS := by
  decide

private theorem all_sims_nodup : ALL_SIMULATIONS.Nodup := by decide

private theorem keys_doc_platform :
    ∀ s ∈ simulationKeys, hasDocument s = true →
      platformOf s ∈ ["whatsapp", "signal", "telegram"] := by decide

private theorem keys_platform :
    ∀ s ∈ simulationKeys,
      platformOf s
        ∈ ["facebook", "instagram", "tiktok", "whatsapp", "signal",
           "telegram"] := by decide

private theorem keys_not_wst :
    ∀ s ∈ simulationKeys,
      s ∉ (["whatsapp", "signal", "telegram"] : List String) := by decide

private theorem keys_fit :
    ∀ s ∈ simulationKeys,
      s ∈ (["facebook", "instagram", "tiktok"] : List String) →
        s = "facebook" ∨ s = "tiktok" := by decide

private theorem keys_nondoc_pext :
    ∀ s ∈ simulationKeys, hasDocument s = false →
      ∀ it : Item, pextOf it s = ".jpg" := by
  intro s hs hd it
  rw [pextOf, hd]
  rfl

/-! ## Equations for the simulator and the orchestrator step -/

private theorem simulatorRun_none (cfg : Cfg) (s : String) (p : Path)
    (fn : String) (fs : FS) (h : fsLookup fs p = none) :
    simulatorRun cfg s p fn fs = fs := by
  rw [simulatorRun, h]

private theorem simulatorRun_doc (cfg : Cfg) (s : String) (p : Path)
    (fn : String) (fs : FS) (c : Bytes) (h : fsLookup fs p = some c)
    (hd : hasDocument s = true) :
    simulatorRun cfg s p fn fs
      = fsWrite fs (tempPath cfg s (lowerStr (splitextExt fn))) c := by
  rw [simulatorRun, h]
  simp [hd]

private theorem simulatorRun_img_ok (cfg : Cfg) (s : String) (p : Path)
    (fn : String) (fs : FS) (c out : Bytes) (h : fsLookup fs p = some c)
    (hd : hasDocument s = false) (ht : cfg.transform s c = some out) :
    simulatorRun cfg s p fn fs = fsWrite fs (tempPath cfg s ".jpg") out := by
  rw [simulatorRun, h]
  simp [hd, ht]

private theorem simulatorRun_img_fail (cfg : Cfg) (s : String) (p : Path)
    (fn : String) (fs : FS) (c : Bytes) (h : fsLookup fs p = some c)
    (hd : hasDocument s = false) (ht : cfg.transform s c = none) :
    simulatorRun cfg s p fn fs = fs := by
  rw [simulatorRun, h]
  simp [hd, ht]

private theorem stepSim_not_key (cfg : Cfg) (w : Row → Bool) (it : Item) (fs : FS)
    (s : String) (h : s ∉ simulationKeys) : stepSim cfg w it fs s = (fs, []) := by
  rw [stepSim, if_neg h]

private theorem stepSim_skip (cfg : Cfg) (w : Row → Bool) (it : Item) (fs : FS) (s : String)
    (h : fsExists fs (finalPath cfg it s) = true) :
    stepSim cfg w it fs s = (fs, []) := by
  by_cases hk : s ∈ simulationKeys
  · rw [stepSim, if_pos hk]
    simp [h]
  · exact stepSim_not_key cfg w it fs s hk

private theorem stepSim_fail (cfg : Cfg) (w : Row → Bool) (it : Item) (fs : FS) (s : String)
    (hk : s ∈ simulationKeys)
    (h1 : fsExists fs (finalPath cfg it s) = false)
    (h2 : fsExists (simulatorRun cfg s it.filePath it.originalFilename fs)
        (tempPath cfg s (pextOf it s)) = false) :
    stepSim cfg w it fs s
      = (simulatorRun cfg s it.filePath it.originalFilename fs, []) := by
  rw [stepSim, if_pos hk]
  simp [h1, h2]

private theorem stepSim_move (cfg : Cfg) (w : Row → Bool) (it : Item) (fs : FS) (s : String)
    (hk : s ∈ simulationKeys)
    (h1 : fsExists fs (finalPath cfg it s) = false)
    (h2 : fsExists (simulatorRun cfg s it.filePath it.originalFilename fs)
        (tempPath cfg s (pextOf it s)) = true) :
    (stepSim cfg w it fs s).1
      = fsMove (simulatorRun cfg s it.filePath it.originalFilename fs)
          (tempPath cfg s (pextOf it s)) (finalPath cfg it s) ∧
    ∀ r ∈ (stepSim cfg w it fs s).2,
      r = mkRow cfg it s
            (newFilename (uniqueBase it.relString) s (pextOf it s))
            (finalPath cfg it s) := by
  rw [stepSim, if_pos hk]
  simp only [h1, h2, Bool.false_eq_true, if_false, if_true]
  by_cases hw : w (mkRow cfg it s
      (newFilename (uniqueBase it.relString) s (pextOf it s))
      (finalPath cfg it s)) = true
  · simp [hw]
  · simp only [Bool.not_eq_true] at hw
    simp [hw]

private theorem stepOriginal_not_run (cfg : Cfg) (w : Row → Bool) (it : Item) (fs : FS)
    (h : "original" ∉ cfg.simulationsToRun) :
    stepOriginal cfg w it fs = (fs, []) := by
  rw [stepOriginal, if_neg h]

private theorem stepOriginal_skip (cfg : Cfg) (w : Row → Bool) (it : Item) (fs : FS)
    (h : fsExists fs (originalPath cfg it) = true) :
    stepOriginal cfg w it fs = (fs, []) := by
  by_cases hr : "original" ∈ cfg.simulationsToRun
  · rw [stepOriginal, if_pos hr]
    simp [h]
  · exact stepOriginal_not_run cfg w it fs hr

private theorem stepOriginal_missing (cfg : Cfg) (w : Row → Bool) (it : Item) (fs : FS)
    (h2 : fsLookup fs it.filePath = none) :
    stepOriginal cfg w it fs = (fs, []) := by
  by_cases hr : "original" ∈ cfg.simulationsToRun
  · rw [stepOriginal, if_pos hr]
    by_cases h1 : fsExists fs (originalPath cfg it) = true
    · simp [h1]
    · simp only [Bool.not_eq_true] at h1
      simp [h1, h2]
  · exact stepOriginal_not_run cfg w it fs hr

private theorem stepOriginal_copy (cfg : Cfg) (w : Row → Bool) (it : Item) (fs : FS)
    (c : Bytes) (hr : "original" ∈ cfg.simulationsToRun)
    (h1 : fsExists fs (originalPath cfg it) = false)
    (h2 : fsLookup fs it.filePath = some c) :
    (stepOriginal cfg w it fs).1 = fsWrite fs (originalPath cfg it) c ∧
    ∀ r ∈ (stepOriginal cfg w it fs).2,
      r = mkRow cfg it "original"
            (uniqueBase it.relString ++ "_original"
              ++ splitextExt it.originalFilename)
            (originalPath cfg it) := by
  rw [stepOriginal, if_pos hr]
  simp only [h1, h2, Bool.false_eq_true, if_false]
  by_cases hw : w (mkRow cfg it "original"
      (uniqueBase it.relString ++ "_original"
        ++ splitextExt it.originalFilename) (originalPath cfg it)) = true
  · simp [hw]
  · simp only [Bool.not_eq_true] at hw
    simp [hw]

/-! ## Distinctness of final and temporary paths -/

private theorem string_length_zero {s : String} (h : s.length = 0) :
    s = "" := by
  cases s with
  | mk d =>
    cases d with
    | nil => rfl
    | cons a t => simp [String.length] at h

private theorem removable_temp (cfg : Cfg) (s : String)
    (hk : s ∈ simulationKeys) (e : String)
    (he : hasDocument s = true ∨ e = ".jpg") :
    removable cfg (tempPath cfg s e) := by
  refine ⟨platformOf s, e, rfl, ?_⟩
  rcases he with hd | rfl
  · exact Or.inl (keys_doc_platform s hk hd)
  · have h6 := keys_platform s hk
    simp only [List.mem_cons, List.not_mem_nil, or_false] at h6
    rcases h6 with h | h | h | h | h | h <;> rw [h]
    · exact Or.inr ⟨by decide, rfl⟩
    · exact Or.inr ⟨by decide, rfl⟩
    · exact Or.inr ⟨by decide, rfl⟩
    · exact Or.inl (by decide)
    · exact Or.inl (by decide)
    · exact Or.inl (by decide)

private theorem finalPath_not_removable (cfg : Cfg) (it : Item) (s : String)
    (hk : s ∈ simulationKeys) : ¬removable cfg (finalPath cfg it s) := by
  rintro ⟨d, e, hp, hd⟩
  rw [finalPath] at hp
  have h2 := List.append_cancel_left hp
  obtain ⟨hsd, hfe⟩ : s = d ∧
      newFilename (uniqueBase it.relString) s (pextOf it s)
        = "TEMPOUT" ++ e := by simpa using h2
  subst hsd
  rcases hd with hwst | ⟨hfit, he⟩
  · exact keys_not_wst s hk hwst
  · subst he
    rcases keys_fit s hk hfit with rfl | rfl
    · rw [keys_nondoc_pext "facebook" hk (by decide) it] at hfe
      have hL := congrArg String.length hfe
      rw [newFilename] at hL
      simp only [String.length_append] at hL
      have e1 : ("_" : String).length = 1 := rfl
      have e2 : ("facebook" : String).length = 8 := rfl
      have e3 : (".jpg" : String).length = 4 := rfl
      have e4 : ("TEMPOUT" : String).length = 7 := rfl
      rw [e1, e2, e3, e4] at hL
      omega
    · rw [keys_nondoc_pext "tiktok" hk (by decide) it] at hfe
      have hL := congrArg String.length hfe
      rw [newFilename] at hL
      simp only [String.length_append] at hL
      have e1 : ("_" : String).length = 1 := rfl
      have e2 : ("tiktok" : String).length = 6 := rfl
      have e3 : (".jpg" : String).length = 4 := rfl
      have e4 : ("TEMPOUT" : String).length = 7 := rfl
      rw [e1, e2, e3, e4] at hL
      have hub : (uniqueBase it.relString).length = 0 := by omega
      rw [string_length_zero hub] at hfe
      exact absurd hfe (by decide)

private theorem originalPath_not_removable (cfg : Cfg) (it : Item) :
    ¬removable cfg (originalPath cfg it) := by
  rintro ⟨d, e, hp, hd⟩
  rw [originalPath] at hp
  have h2 := List.append_cancel_left hp
  obtain ⟨hsd, -⟩ : "originals" = d ∧
      uniqueBase it.relString ++ "_original" ++ splitextExt it.originalFilename
        = "TEMPOUT" ++ e := by simpa using h2
  rw [← hsd] at hd
  rcases hd with h | ⟨h, -⟩
  · exact absurd h (by decide)
  · exact absurd h (by decide)

/-! ## Preservation lemmas for one orchestrator step -/

private theorem removable_tp (cfg : Cfg) (it : Item) (s : String)
    (hk : s ∈ simulationKeys) :
    removable cfg (tempPath cfg s (pextOf it s)) := by
  by_cases hd : hasDocument s = true
  · exact removable_temp cfg s hk _ (Or.inl hd)
  · have hpx : pextOf it s = ".jpg" :=
      keys_nondoc_pext s hk (by simpa using hd) it
    rw [hpx]
    exact removable_temp cfg s hk _ (Or.inr rfl)

private theorem tp_ne_final (cfg : Cfg) (it jt : Item) (s u : String)
    (hk : s ∈ simulationKeys) (hu : u ∈ simulationKeys) :
    tempPath cfg s (pextOf it s) ≠ finalPath cfg jt u := fun he =>
  finalPath_not_removable cfg jt u hu (he ▸ removable_tp cfg it s hk)

private theorem simulatorRun_preserves (cfg : Cfg) (s : String) (pIn : Path)
    (fn : String) (fs : FS) (p : Path) (hk : s ∈ simulationKeys)
    (hrem : ¬removable cfg p) :
    fsLookup (simulatorRun cfg s pIn fn fs) p = fsLookup fs p := by
  cases hl : fsLookup fs pIn with
  | none => rw [simulatorRun_none cfg s pIn fn fs hl]
  | some c =>
    by_cases hd : hasDocument s = true
    · rw [simulatorRun_doc cfg s pIn fn fs c hl hd]
      exact fsLookup_write_ne _ _ _ _ fun he =>
        hrem (he ▸ removable_temp cfg s hk _ (Or.inl hd))
    · have hd' : hasDocument s = false := by simpa using hd
      cases ht : cfg.transform s c with
      | none => rw [simulatorRun_img_fail cfg s pIn fn fs c hl hd' ht]
      | some out =>
        rw [simulatorRun_img_ok cfg s pIn fn fs c out hl hd' ht]
        exact fsLookup_write_ne _ _ _ _ fun he =>
          hrem (he ▸ removable_temp cfg s hk _ (Or.inr rfl))

private theorem simulatorRun_only_tp (cfg : Cfg) (it : Item) (fs : FS)
    (s : String) (q : Path) (hk : s ∈ simulationKeys) (hlc : lcExt it)
    (hq : q ≠ tempPath cfg s (pextOf it s)) :
    fsLookup (simulatorRun cfg s it.filePath it.originalFilename fs) q
      = fsLookup fs q := by
  cases hl : fsLookup fs it.filePath with
  | none => rw [simulatorRun_none _ _ _ _ _ hl]
  | some c =>
    by_cases hd : hasDocument s = true
    · rw [simulatorRun_doc _ _ _ _ _ c hl hd]
      refine fsLookup_write_ne _ _ _ _ ?_
      rw [lcExt] at hlc
      rw [hlc]
      rw [show splitextExt it.originalFilename = pextOf it s by
            simp [pextOf, hd]]
      exact hq
    · have hd' : hasDocument s = false := by simpa using hd
      cases ht : cfg.transform s c with
      | none => rw [simulatorRun_img_fail _ _ _ _ _ c hl hd' ht]
      | some out =>
        rw [simulatorRun_img_ok _ _ _ _ _ c out hl hd' ht]
        refine fsLookup_write_ne _ _ _ _ ?_
        rw [show (".jpg" : String) = pextOf it s from
              (keys_nondoc_pext s hk hd' it).symm]
        exact hq

private theorem simulatorRun_only_tp_exists (cfg : Cfg) (it : Item) (fs : FS)
    (s : String) (q : Path) (hk : s ∈ simulationKeys) (hlc : lcExt it)
    (hq : q ≠ tempPath cfg s (pextOf it s)) :
    fsExists (simulatorRun cfg s it.filePath it.originalFilename fs) q
      = fsExists fs q := by
  rw [fsExists, simulatorRun_only_tp cfg it fs s q hk hlc hq, fsExists]

private theorem stepSim_preserves_lookup (cfg : Cfg) (w : Row → Bool) (it : Item) (fs : FS)
    (s : String) (p : Path) (hex : fsExists fs p = true)
    (hrem : ¬removable cfg p) :
    fsLookup (stepSim cfg w it fs s).1 p = fsLookup fs p := by
  by_cases hk : s ∈ simulationKeys
  · by_cases h1 : fsExists fs (finalPath cfg it s) = true
    · rw [stepSim_skip cfg w it fs s h1]
    · have h1' : fsExists fs (finalPath cfg it s) = false := by simpa using h1
      have hpf : p ≠ finalPath cfg it s := fun he => by
        rw [he] at hex
        rw [hex] at h1'
        exact Bool.true_eq_false.mp h1'
      by_cases h2 : fsExists (simulatorRun cfg s it.filePath
          it.originalFilename fs) (tempPath cfg s (pextOf it s)) = true
      · have hnt : p ≠ tempPath cfg s (pextOf it s) := fun he => by
          rw [he] at hrem
          exact hrem (removable_tp cfg it s hk)
        rw [(stepSim_move cfg w it fs s hk h1' h2).1,
          fsLookup_move_other _ _ _ _ hnt hpf,
          simulatorRun_preserves cfg s _ _ fs p hk hrem]
      · have h2' : fsExists (simulatorRun cfg s it.filePath
            it.originalFilename fs) (tempPath cfg s (pextOf it s)) = false := by
          simpa using h2
        rw [stepSim_fail cfg w it fs s hk h1' h2',
          simulatorRun_preserves cfg s _ _ fs p hk hrem]
  · rw [stepSim_not_key cfg w it fs s hk]

private theorem stepSim_preserves_absent (cfg : Cfg) (w : Row → Bool) (it : Item) (fs : FS)
    (s : String) (p : Path) (hrem : removable cfg p)
    (habs : fsExists fs p = false) (hlc : lcExt it) :
    fsExists (stepSim cfg w it fs s).1 p = false := by
  by_cases hk : s ∈ simulationKeys
  · by_cases h1 : fsExists fs (finalPath cfg it s) = true
    · rw [stepSim_skip cfg w it fs s h1]
      exact habs
    · have h1' : fsExists fs (finalPath cfg it s) = false := by simpa using h1
      have hpf : p ≠ finalPath cfg it s := fun he =>
        finalPath_not_removable cfg it s hk (he ▸ hrem)
      by_cases h2 : fsExists (simulatorRun cfg s it.filePath
          it.originalFilename fs) (tempPath cfg s (pextOf it s)) = true
      · rw [(stepSim_move cfg w it fs s hk h1' h2).1]
        by_cases hptp : p = tempPath cfg s (pextOf it s)
        · rw [hptp, fsExists, fsLookup_move_src _ _ _
            (tp_ne_final cfg it it s s hk hk)]
          rfl
        · rw [fsExists, fsLookup_move_other _ _ _ _ hptp hpf,
            ← fsExists, simulatorRun_only_tp_exists cfg it fs s p hk hlc hptp]
          exact habs
      · have h2' : fsExists (simulatorRun cfg s it.filePath
            it.originalFilename fs) (tempPath cfg s (pextOf it s)) = false := by
          simpa using h2
        rw [stepSim_fail cfg w it fs s hk h1' h2']
        by_cases hptp : p = tempPath cfg s (pextOf it s)
        · rw [hptp]
          exact h2'
        · rw [simulatorRun_only_tp_exists cfg it fs s p hk hlc hptp]
          exact habs
  · rw [stepSim_not_key cfg w it fs s hk]
    exact habs

private theorem not_prefix_ne {cfg : Cfg} {p : Path}
    (h : ¬cfg.curatedDir <+: p) (l : List String) :
    p ≠ cfg.curatedDir ++ l := fun he => by
  rw [he] at h
  exact h (List.prefix_append _ _)

private theorem stepSim_outside (cfg : Cfg) (w : Row → Bool) (it : Item) (fs : FS)
    (s : String) (p : Path) (h : ¬cfg.curatedDir <+: p) :
    fsLookup (stepSim cfg w it fs s).1 p = fsLookup fs p := by
  have hsim : ∀ g : FS,
      fsLookup (simulatorRun cfg s it.filePath it.originalFilename g) p
        = fsLookup g p := by
    intro g
    cases hl : fsLookup g it.filePath with
    | none => rw [simulatorRun_none _ _ _ _ _ hl]
    | some c =>
      by_cases hd : hasDocument s = true
      · rw [simulatorRun_doc _ _ _ _ _ c hl hd]
        exact fsLookup_write_ne _ _ _ _ (not_prefix_ne h _)
      · have hd' : hasDocument s = false := by simpa using hd
        cases ht : cfg.transform s c with
        | none => rw [simulatorRun_img_fail _ _ _ _ _ c hl hd' ht]
        | some out =>
          rw [simulatorRun_img_ok _ _ _ _ _ c out hl hd' ht]
          exact fsLookup_write_ne _ _ _ _ (not_prefix_ne h _)
  by_cases hk : s ∈ simulationKeys
  · by_cases h1 : fsExists fs (finalPath cfg it s) = true
    · rw [stepSim_skip cfg w it fs s h1]
    · have h1' : fsExists fs (finalPath cfg it s) = false := by simpa using h1
      by_cases h2 : fsExists (simulatorRun cfg s it.filePath
          it.originalFilename fs) (tempPath cfg s (pextOf it s)) = true
      · have hnt : p ≠ tempPath cfg s (pextOf it s) := not_prefix_ne h _
        have hnf : p ≠ finalPath cfg it s := not_prefix_ne h _
        rw [(stepSim_move cfg w it fs s hk h1' h2).1,
          fsLookup_move_other _ _ _ _ hnt hnf, hsim fs]
      · have h2' : fsExists (simulatorRun cfg s it.filePath
            it.originalFilename fs) (tempPath cfg s (pextOf it s)) = false := by
          simpa using h2
        rw [stepSim_fail cfg w it fs s hk h1' h2', hsim fs]
  · rw [stepSim_not_key cfg w it fs s hk]

private theorem stepOriginal_preserves_lookup (cfg : Cfg) (w : Row → Bool) (it : Item)
    (fs : FS) (p : Path) (hex : fsExists fs p = true) :
    fsLookup (stepOriginal cfg w it fs).1 p = fsLookup fs p := by
  by_cases hr : "original" ∈ cfg.simulationsToRun
  · by_cases h1 : fsExists fs (originalPath cfg it) = true
    · rw [stepOriginal_skip cfg w it fs h1]
    · have h1' : fsExists fs (originalPath cfg it) = false := by simpa using h1
      have hpo : p ≠ originalPath cfg it := fun he => by
        rw [he] at hex
        rw [hex] at h1'
        exact Bool.true_eq_false.mp h1'
      cases hl : fsLookup fs it.filePath with
      | none => rw [stepOriginal_missing cfg w it fs hl]
      | some c =>
        rw [(stepOriginal_copy cfg w it fs c hr h1' hl).1]
        exact fsLookup_write_ne _ _ _ _ hpo
  · rw [stepOriginal_not_run cfg w it fs hr]

private theorem stepOriginal_preserves_absent (cfg : Cfg) (w : Row → Bool) (it : Item)
    (fs : FS) (p : Path) (hrem : removable cfg p)
    (habs : fsExists fs p = false) :
    fsExists (stepOriginal cfg w it fs).1 p = false := by
  by_cases hr : "original" ∈ cfg.simulationsToRun
  · by_cases h1 : fsExists fs (originalPath cfg it) = true
    · rw [stepOriginal_skip cfg w it fs h1]
      exact habs
    · have h1' : fsExists fs (originalPath cfg it) = false := by simpa using h1
      cases hl : fsLookup fs it.filePath with
      | none =>
        rw [stepOriginal_missing cfg w it fs hl]
        exact habs
      | some c =>
        have hpo : p ≠ originalPath cfg it := fun he => by
          rw [he] at hrem
          exact originalPath_not_removable cfg it hrem
        rw [(stepOriginal_copy cfg w it fs c hr h1' hl).1, fsExists,
          fsLookup_write_ne _ _ _ _ hpo]
        exact habs
  · rw [stepOriginal_not_run cfg w it fs hr]
    exact habs

private theorem stepOriginal_outside (cfg : Cfg) (w : Row → Bool) (it : Item) (fs : FS)
    (p : Path) (h : ¬cfg.curatedDir <+: p) :
    fsLookup (stepOriginal cfg w it fs).1 p = fsLookup fs p := by
  by_cases hr : "original" ∈ cfg.simulationsToRun
  · by_cases h1 : fsExists fs (originalPath cfg it) = true
    · rw [stepOriginal_skip cfg w it fs h1]
    · have h1' : fsExists fs (originalPath cfg it) = false := by simpa using h1
      cases hl : fsLookup fs it.filePath with
      | none => rw [stepOriginal_missing cfg w it fs hl]
      | some c =>
        rw [(stepOriginal_copy cfg w it fs c hr h1' hl).1]
        exact fsLookup_write_ne _ _ _ _ (not_prefix_ne h _)
  · rw [stepOriginal_not_run cfg w it fs hr]

/-! ## Propagation of the pair post-states through a run -/

private theorem runSims_cons_ne (cfg : Cfg) (w : Row → Bool) (jt : Item) (u : String)
    (rest : List String) (fs : FS) (h : ¬u = "original") :
    runSims cfg w jt (u :: rest) fs
      = ((runSims cfg w jt rest (stepSim cfg w jt fs u).1).1,
         (stepSim cfg w jt fs u).2
           ++ (runSims cfg w jt rest (stepSim cfg w jt fs u).1).2) := by
  rw [runSims, if_neg h]

private theorem runSims_cons_orig (cfg : Cfg) (w : Row → Bool) (jt : Item)
    (rest : List String) (fs : FS) :
    runSims cfg w jt ("original" :: rest) fs = runSims cfg w jt rest fs := by
  rw [runSims, if_pos rfl]

private theorem done_preserved_stepSim (cfg : Cfg) (w : Row → Bool) (it jt : Item) (fs : FS)
    (s u : String) (hk : s ∈ simulationKeys)
    (hout : ¬cfg.curatedDir <+: it.filePath) (hlcjt : lcExt jt)
    (hd : Done cfg it s fs) : Done cfg it s (stepSim cfg w jt fs u).1 := by
  rcases hd with h | ⟨ht, hin⟩
  · left
    have hpl := stepSim_preserves_lookup cfg w jt fs u (finalPath cfg it s) h
      (finalPath_not_removable cfg it s hk)
    rw [fsExists, hpl]
    exact h
  · right
    refine ⟨stepSim_preserves_absent cfg w jt fs u _
      (removable_tp cfg it s hk) ht hlcjt, ?_⟩
    have hio := stepSim_outside cfg w jt fs u it.filePath hout
    rcases hin with hn | ⟨hnd, htr⟩
    · exact Or.inl (by rw [hio, hn])
    · exact Or.inr ⟨hnd, fun c hc => htr c (by rw [← hio]; exact hc)⟩

private theorem done_preserved_stepOriginal (cfg : Cfg) (w : Row → Bool) (it jt : Item)
    (fs : FS) (s : String) (hk : s ∈ simulationKeys)
    (hout : ¬cfg.curatedDir <+: it.filePath)
    (hd : Done cfg it s fs) : Done cfg it s (stepOriginal cfg w jt fs).1 := by
  rcases hd with h | ⟨ht, hin⟩
  · left
    have hpl := stepOriginal_preserves_lookup cfg w jt fs (finalPath cfg it s) h
    rw [fsExists, hpl]
    exact h
  · right
    refine ⟨stepOriginal_preserves_absent cfg w jt fs _
      (removable_tp cfg it s hk) ht, ?_⟩
    have hio := stepOriginal_outside cfg w jt fs it.filePath hout
    rcases hin with hn | ⟨hnd, htr⟩
    · exact Or.inl (by rw [hio, hn])
    · exact Or.inr ⟨hnd, fun c hc => htr c (by rw [← hio]; exact hc)⟩

private theorem doneO_preserved_stepSim (cfg : Cfg) (w : Row → Bool) (it jt : Item) (fs : FS)
    (u : String) (hout : ¬cfg.curatedDir <+: it.filePath) (hlcjt : lcExt jt)
    (hd : DoneO cfg it fs) : DoneO cfg it (stepSim cfg w jt fs u).1 := by
  rcases hd with h | hn
  · left
    have hpl := stepSim_preserves_lookup cfg w jt fs u (originalPath cfg it) h
      (originalPath_not_removable cfg it)
    rw [fsExists, hpl]
    exact h
  · right
    rw [stepSim_outside cfg w jt fs u it.filePath hout]
    exact hn

private theorem doneO_preserved_stepOriginal (cfg : Cfg) (w : Row → Bool) (it jt : Item)
    (fs : FS) (hout : ¬cfg.curatedDir <+: it.filePath)
    (hd : DoneO cfg it fs) : DoneO cfg it (stepOriginal cfg w jt fs).1 := by
  rcases hd with h | hn
  · left
    have hpl := stepOriginal_preserves_lookup cfg w jt fs (originalPath cfg it) h
    rw [fsExists, hpl]
    exact h
  · right
    rw [stepOriginal_outside cfg w jt fs it.filePath hout]
    exact hn

private theorem done_preserved_runSims (cfg : Cfg) (w : Row → Bool) (it jt : Item)
    (s : String) (hk : s ∈ simulationKeys)
    (hout : ¬cfg.curatedDir <+: it.filePath) (hlcjt : lcExt jt) :
    ∀ (sims : List String) (fs : FS), Done cfg it s fs →
      Done cfg it s (runSims cfg w jt sims fs).1
  | [], fs, hd => hd
  | u :: rest, fs, hd => by
    by_cases hu : u = "original"
    · subst hu
      rw [runSims_cons_orig]
      exact done_preserved_runSims cfg w it jt s hk hout hlcjt rest fs hd
    · rw [runSims_cons_ne cfg w jt u rest fs hu]
      exact done_preserved_runSims cfg w it jt s hk hout hlcjt rest _
        (done_preserved_stepSim cfg w it jt fs s u hk hout hlcjt hd)

private theorem doneO_preserved_runSims (cfg : Cfg) (w : Row → Bool) (it jt : Item)
    (hout : ¬cfg.curatedDir <+: it.filePath) (hlcjt : lcExt jt) :
    ∀ (sims : List String) (fs : FS), DoneO cfg it fs →
      DoneO cfg it (runSims cfg w jt sims fs).1
  | [], fs, hd => hd
  | u :: rest, fs, hd => by
    by_cases hu : u = "original"
    · subst hu
      rw [runSims_cons_orig]
      exact doneO_preserved_runSims cfg w it jt hout hlcjt rest fs hd
    · rw [runSims_cons_ne cfg w jt u rest fs hu]
      exact doneO_preserved_runSims cfg w it jt hout hlcjt rest _
        (doneO_preserved_stepSim cfg w it jt fs u hout hlcjt hd)

private theorem itemDone_preserved_runImage (cfg : Cfg) (w : Row → Bool) (it jt : Item)
    (fs : FS) (hout : ¬cfg.curatedDir <+: it.filePath) (hlcjt : lcExt jt)
    (hd : ItemDone cfg it fs) : ItemDone cfg it (runImage cfg w jt fs).1 := by
  obtain ⟨hdO, hdS⟩ := hd
  have hstate : (runImage cfg w jt fs).1
      = (runSims cfg w jt cfg.simulationsToRun (stepOriginal cfg w jt fs).1).1 :=
    rfl
  rw [hstate]
  constructor
  · intro hr
    exact doneO_preserved_runSims cfg w it jt hout hlcjt _ _
      (doneO_preserved_stepOriginal cfg w it jt fs hout (hdO hr))
  · intro s hs hso hk
    exact done_preserved_runSims cfg w it jt s hk hout hlcjt _ _
      (done_preserved_stepOriginal cfg w it jt fs s hk hout (hdS s hs hso hk))

private theorem itemDone_preserved_runAll (cfg : Cfg) (w : Row → Bool) (it : Item)
    (hout : ¬cfg.curatedDir <+: it.filePath) :
    ∀ (items : List Item) (fs : FS), (∀ jt ∈ items, lcExt jt) →
      ItemDone cfg it fs → ItemDone cfg it (runAll cfg w items fs).1
  | [], fs, _, hd => hd
  | jt :: rest, fs, hlc, hd => by
    have hstate : (runAll cfg w (jt :: rest) fs).1
        = (runAll cfg w rest (runImage cfg w jt fs).1).1 := rfl
    rw [hstate]
    exact itemDone_preserved_runAll cfg w it hout rest _
      (fun x hx => hlc x (List.mem_cons_of_mem jt hx))
      (itemDone_preserved_runImage cfg w it jt fs hout
        (hlc jt (List.mem_cons_self jt rest)) hd)

/-! ## Each pair reaches its post-state at its own step -/

private theorem done_established_stepSim (cfg : Cfg) (w : Row → Bool) (it : Item) (fs : FS)
    (s : String) (hk : s ∈ simulationKeys)
    (hout : ¬cfg.curatedDir <+: it.filePath) (hlc : lcExt it) :
    Done cfg it s (stepSim cfg w it fs s).1 := by
  by_cases h1 : fsExists fs (finalPath cfg it s) = true
  · rw [stepSim_skip cfg w it fs s h1]
    exact Or.inl h1
  · have h1' : fsExists fs (finalPath cfg it s) = false := by simpa using h1
    by_cases h2 : fsExists (simulatorRun cfg s it.filePath
        it.originalFilename fs) (tempPath cfg s (pextOf it s)) = true
    · obtain ⟨b, hb⟩ := Option.isSome_iff_exists.mp h2
      rw [(stepSim_move cfg w it fs s hk h1' h2).1]
      exact Or.inl (by
        rw [fsExists, fsLookup_move_dst _ _ _ b hb]
        rfl)
    · have h2' : fsExists (simulatorRun cfg s it.filePath
          it.originalFilename fs) (tempPath cfg s (pextOf it s)) = false := by
        simpa using h2
      rw [stepSim_fail cfg w it fs s hk h1' h2']
      refine Or.inr ⟨h2', ?_⟩
      have hio : fsLookup (simulatorRun cfg s it.filePath
          it.originalFilename fs) it.filePath = fsLookup fs it.filePath := by
        refine simulatorRun_only_tp cfg it fs s it.filePath hk hlc ?_
        exact not_prefix_ne hout _
      cases hl : fsLookup fs it.filePath with
      | none => exact Or.inl (by rw [hio, hl])
      | some c =>
        by_cases hd : hasDocument s = true
        · exfalso
          have hw := simulatorRun_doc cfg s it.filePath it.originalFilename
            fs c hl hd
          rw [lcExt] at hlc
          rw [hlc, show splitextExt it.originalFilename = pextOf it s by
                simp [pextOf, hd]] at hw
          rw [hw, fsExists, fsLookup_write_self] at h2'
          exact Bool.true_eq_false.mp h2'
        · have hd' : hasDocument s = false := by simpa using hd
          cases htr : cfg.transform s c with
          | some out =>
            exfalso
            have hw := simulatorRun_img_ok cfg s it.filePath
              it.originalFilename fs c out hl hd' htr
            rw [show (".jpg" : String) = pextOf it s from
                  (keys_nondoc_pext s hk hd' it).symm] at hw
            rw [hw, fsExists, fsLookup_write_self] at h2'
            exact Bool.true_eq_false.mp h2'
          | none =>
            refine Or.inr ⟨hd', fun c' hc' => ?_⟩
            rw [hio, hl] at hc'
            injection hc' with hcc
            rw [← hcc]
            exact htr

private theorem doneO_established_stepOriginal (cfg : Cfg) (w : Row → Bool) (it : Item)
    (fs : FS) (hr : "original" ∈ cfg.simulationsToRun) :
    DoneO cfg it (stepOriginal cfg w it fs).1 := by
  by_cases h1 : fsExists fs (originalPath cfg it) = true
  · rw [stepOriginal_skip cfg w it fs h1]
    exact Or.inl h1
  · have h1' : fsExists fs (originalPath cfg it) = false := by simpa using h1
    cases hl : fsLookup fs it.filePath with
    | none =>
      rw [stepOriginal_missing cfg w it fs hl]
      exact Or.inr hl
    | some c =>
      rw [(stepOriginal_copy cfg w it fs c hr h1' hl).1]
      exact Or.inl (by rw [fsExists, fsLookup_write_self]; rfl)

private theorem done_runSims (cfg : Cfg) (w : Row → Bool) (it : Item)
    (hout : ¬cfg.curatedDir <+: it.filePath) (hlc : lcExt it) :
    ∀ (sims : List String) (fs : FS) (s : String), s ∈ sims →
      ¬s = "original" → s ∈ simulationKeys →
      Done cfg it s (runSims cfg w it sims fs).1
  | [], _, s, hs, _, _ => absurd hs (List.not_mem_nil s)
  | u :: rest, fs, s, hs, hso, hk => by
    by_cases hu : u = "original"
    · subst hu
      rw [runSims_cons_orig]
      have hs' : s ∈ rest := by
        rcases List.mem_cons.mp hs with rfl | h
        · exact absurd rfl hso
        · exact h
      exact done_runSims cfg w it hout hlc rest fs s hs' hso hk
    · rw [runSims_cons_ne cfg w it u rest fs hu]
      rcases List.mem_cons.mp hs with rfl | h
      · exact done_preserved_runSims cfg w it it s hk hout hlc rest _
          (done_established_stepSim cfg w it fs s hk hout hlc)
      · exact done_runSims cfg w it hout hlc rest _ s h hso hk

private theorem itemDone_runImage (cfg : Cfg) (w : Row → Bool) (it : Item) (fs : FS)
    (hout : ¬cfg.curatedDir <+: it.filePath) (hlc : lcExt it) :
    ItemDone cfg it (runImage cfg w it fs).1 := by
  have hstate : (runImage cfg w it fs).1
      = (runSims cfg w it cfg.simulationsToRun (stepOriginal cfg w it fs).1).1 :=
    rfl
  rw [hstate]
  constructor
  · intro hr
    exact doneO_preserved_runSims cfg w it it hout hlc _ _
      (doneO_established_stepOriginal cfg w it fs hr)
  · intro s hs hso hk
    exact done_runSims cfg w it hout hlc _ _ s hs hso hk

private theorem itemDone_runAll (cfg : Cfg) (w : Row → Bool) :
    ∀ (items : List Item) (fs : FS),
      (∀ it ∈ items, ¬cfg.curatedDir <+: it.filePath) →
      (∀ it ∈ items, lcExt it) →
      ∀ it ∈ items, ItemDone cfg it (runAll cfg w items fs).1
  | [], _, _, _, it, hit => absurd hit (List.not_mem_nil it)
  | jt :: rest, fs, hout, hlc, it, hit => by
    have hstate : (runAll cfg w (jt :: rest) fs).1
        = (runAll cfg w rest (runImage cfg w jt fs).1).1 := rfl
    rw [hstate]
    rcases List.mem_cons.mp hit with rfl | h
    · exact itemDone_preserved_runAll cfg w it
        (hout it (List.mem_cons_self it rest)) rest _
        (fun x hx => hlc x (List.mem_cons_of_mem it hx))
        (itemDone_runImage cfg w it fs (hout it (List.mem_cons_self it rest))
          (hlc it (List.mem_cons_self it rest)))
    · exact itemDone_runAll cfg w rest _
        (fun x hx => hout x (List.mem_cons_of_mem jt hx))
        (fun x hx => hlc x (List.mem_cons_of_mem jt hx)) it h

/-! ## Settled pairs make the step a no-op -/

private theorem stepSim_stable (cfg : Cfg) (w : Row → Bool) (it : Item) (fs : FS) (s : String)
    (hd : Done cfg it s fs) : stepSim cfg w it fs s = (fs, []) := by
  by_cases h1 : fsExists fs (finalPath cfg it s) = true
  · exact stepSim_skip cfg w it fs s h1
  · have h1' : fsExists fs (finalPath cfg it s) = false := by simpa using h1
    rcases hd with hx | ⟨ht, hin⟩
    · exact absurd hx h1
    · by_cases hk : s ∈ simulationKeys
      · have hsim : simulatorRun cfg s it.filePath it.originalFilename fs
            = fs := by
          rcases hin with hn | ⟨hnd, htr⟩
          · exact simulatorRun_none cfg s _ _ fs hn
          · cases hl : fsLookup fs it.filePath with
            | none => exact simulatorRun_none cfg s _ _ fs hl
            | some c =>
              exact simulatorRun_img_fail cfg s _ _ fs c hl hnd (htr c hl)
        have h2' : fsExists (simulatorRun cfg s it.filePath
            it.originalFilename fs) (tempPath cfg s (pextOf it s)) = false := by
          rw [hsim]
          exact ht
        rw [stepSim_fail cfg w it fs s hk h1' h2', hsim]
      · exact stepSim_not_key cfg w it fs s hk

private theorem stepOriginal_stable (cfg : Cfg) (w : Row → Bool) (it : Item) (fs : FS)
    (hd : "original" ∈ cfg.simulationsToRun → DoneO cfg it fs) :
    stepOriginal cfg w it fs = (fs, []) := by
  by_cases hr : "original" ∈ cfg.simulationsToRun
  · rcases hd hr with hx | hn
    · exact stepOriginal_skip cfg w it fs hx
    · exact stepOriginal_missing cfg w it fs hn
  · exact stepOriginal_not_run cfg w it fs hr

private theorem runSims_noop (cfg : Cfg) (w : Row → Bool) (it : Item) :
    ∀ (sims : List String) (fs : FS),
      (∀ s ∈ sims, ¬s = "original" → stepSim cfg w it fs s = (fs, [])) →
      runSims cfg w it sims fs = (fs, [])
  | [], fs, _ => rfl
  | u :: rest, fs, h => by
    by_cases hu : u = "original"
    · subst hu
      rw [runSims_cons_orig]
      exact runSims_noop cfg w it rest fs
        (fun s hs => h s (List.mem_cons_of_mem _ hs))
    · rw [runSims_cons_ne cfg w it u rest fs hu,
        h u (List.mem_cons_self u rest) hu]
      have hr := runSims_noop cfg w it rest fs
        (fun s hs => h s (List.mem_cons_of_mem _ hs))
      rw [hr]
      rfl

private theorem runImage_noop (cfg : Cfg) (w : Row → Bool) (it : Item) (fs : FS)
    (hd : ItemDone cfg it fs) : runImage cfg w it fs = (fs, []) := by
  obtain ⟨hdO, hdS⟩ := hd
  have ho := stepOriginal_stable cfg w it fs hdO
  rw [runImage, ho]
  have hs := runSims_noop cfg w it cfg.simulationsToRun fs (fun s hs hso => by
    by_cases hk : s ∈ simulationKeys
    · exact stepSim_stable cfg w it fs s (hdS s hs hso hk)
    · exact stepSim_not_key cfg w it fs s hk)
  rw [hs]
  rfl

private theorem runAll_noop (cfg : Cfg) (w : Row → Bool) :
    ∀ (items : List Item) (fs : FS),
      (∀ it ∈ items, ItemDone cfg it fs) → runAll cfg w items fs = (fs, [])
  | [], _, _ => rfl
  | it :: rest, fs, h => by
    rw [runAll, runImage_noop cfg w it fs (h it (List.mem_cons_self it rest))]
    have hr := runAll_noop cfg w rest fs
      (fun x hx => h x (List.mem_cons_of_mem _ hx))
    rw [hr]
    rfl

/-! ## C2: idempotency of the orchestrator -/

/-- C2 counterexample: with an item whose extension is not lowercase
(`data/x.JPG`), the document profile writes its temp copy under the
lowercased extension (`whatsapp/TEMPOUT.jpg`) while the orchestrator
expects `TEMPOUT.JPG`, so the temp file is never moved.  On the first run
it is consumed by the `whatsapp_standard_media` move; the second run
re-creates it: the second run appends no ledger row, yet the set of files
on disk after the second run differs from the set after the first —
the claimed run-twice file-set identity fails. -/
theorem rerun_not_file_identical :
    (runAll upperCfg (fun _ => true) [upperItem] (runAll upperCfg (fun _ => true) [upperItem] upperFs).1).2
      = [] ∧
    fsExists (runAll upperCfg (fun _ => true) [upperItem] upperFs).1
      ["out", "whatsapp", "TEMPOUT.jpg"] = false ∧
    fsExists (runAll upperCfg (fun _ => true) [upperItem]
        (runAll upperCfg (fun _ => true) [upperItem] upperFs).1).1
      ["out", "whatsapp", "TEMPOUT.jpg"] = true := by decide

/-- C2 amended: (i) any (item, profile) pair whose deterministic final
output path already exists is skipped — no ledger row, no file change; and
(ii) provided every item's filename extension is already lowercase (true of
everything the pipeline's own discovery enumerates) and the items live
outside the curated output directory, a second run of the orchestrator
over the same items and profile list is a complete no-op: it leaves the
filesystem exactly as the first run left it and appends zero ledger rows.
Without the lowercase proviso a document profile re-creates its platform
temp file on every rerun (see the counterexample), though final artifacts
and ledger rows are still never duplicated. -/
theorem orchestrator_idempotent (cfg : Cfg) (w : Row → Bool) (items : List Item) (fs : FS)
    (hout : ∀ it ∈ items, ¬cfg.curatedDir <+: it.filePath)
    (hlc : ∀ it ∈ items, lcExt it) :
    (∀ (it : Item) (s : String) (g : FS),
        fsExists g (finalPath cfg it s) = true →
        stepSim cfg w it g s = (g, [])) ∧
    runAll cfg w items (runAll cfg w items fs).1
      = ((runAll cfg w items fs).1, []) := by
  refine ⟨fun it s g hg => stepSim_skip cfg w it g s hg, ?_⟩
  exact runAll_noop cfg w items _ (itemDone_runAll cfg w items fs hout hlc)

/-- Witness for C2 amended, on the concrete fixture run. -/
theorem orchestrator_idempotent_witness :
    ((∀ it ∈ [fixItem], ¬fixCfg.curatedDir <+: it.filePath) ∧
     (∀ it ∈ [fixItem], lcExt it)) ∧
    ((∀ (it : Item) (s : String) (g : FS),
        fsExists g (finalPath fixCfg it s) = true →
        stepSim fixCfg (fun _ => true) it g s = (g, [])) ∧
     runAll fixCfg (fun _ => true) [fixItem] (runAll fixCfg (fun _ => true) [fixItem] fixFs).1
       = ((runAll fixCfg (fun _ => true) [fixItem] fixFs).1, [])) :=
  ⟨⟨by decide, by decide⟩,
   orchestrator_idempotent fixCfg (fun _ => true) [fixItem] fixFs (by decide) (by decide)⟩

/-! ## C4: ledger append failures are caught, not fatal -/

private theorem stepSim_move_rows (cfg : Cfg) (w : Row → Bool) (it : Item)
    (fs : FS) (s : String) (hk : s ∈ simulationKeys)
    (h1 : fsExists fs (finalPath cfg it s) = false)
    (h2 : fsExists (simulatorRun cfg s it.filePath it.originalFilename fs)
        (tempPath cfg s (pextOf it s)) = true) :
    (stepSim cfg w it fs s).2
      = if w (mkRow cfg it s
            (newFilename (uniqueBase it.relString) s (pextOf it s))
            (finalPath cfg it s)) = true
        then [mkRow cfg it s
            (newFilename (uniqueBase it.relString) s (pextOf it s))
            (finalPath cfg it s)]
        else [] := by
  rw [stepSim, if_pos hk]
  simp only [h1, h2, Bool.false_eq_true, if_false, if_true]
  by_cases hw : w (mkRow cfg it s
      (newFilename (uniqueBase it.relString) s (pextOf it s))
      (finalPath cfg it s)) = true
  · simp [hw]
  · simp only [Bool.not_eq_true] at hw
    simp [hw]

private theorem stepOriginal_copy_rows (cfg : Cfg) (w : Row → Bool)
    (it : Item) (fs : FS) (c : Bytes)
    (hr : "original" ∈ cfg.simulationsToRun)
    (h1 : fsExists fs (originalPath cfg it) = false)
    (h2 : fsLookup fs it.filePath = some c) :
    (stepOriginal cfg w it fs).2
      = if w (mkRow cfg it "original"
            (uniqueBase it.relString ++ "_original"
              ++ splitextExt it.originalFilename) (originalPath cfg it)) = true
        then [mkRow cfg it "original"
            (uniqueBase it.relString ++ "_original"
              ++ splitextExt it.originalFilename) (originalPath cfg it)]
        else [] := by
  rw [stepOriginal, if_pos hr]
  simp only [h1, h2, Bool.false_eq_true, if_false]
  by_cases hw : w (mkRow cfg it "original"
      (uniqueBase it.relString ++ "_original"
        ++ splitextExt it.originalFilename) (originalPath cfg it)) = true
  · simp [hw]
  · simp only [Bool.not_eq_true] at hw
    simp [hw]

private theorem stepSim_w (cfg : Cfg) (w : Row → Bool) (it : Item) (fs : FS)
    (s : String) :
    (stepSim cfg w it fs s).1 = (stepSim cfg (fun _ => true) it fs s).1 ∧
    (stepSim cfg w it fs s).2
      = ((stepSim cfg (fun _ => true) it fs s).2).filter w := by
  by_cases hk : s ∈ simulationKeys
  · by_cases h1 : fsExists fs (finalPath cfg it s) = true
    · rw [stepSim_skip cfg w it fs s h1,
        stepSim_skip cfg (fun _ => true) it fs s h1]
      exact ⟨rfl, rfl⟩
    · have h1' : fsExists fs (finalPath cfg it s) = false := by simpa using h1
      by_cases h2 : fsExists (simulatorRun cfg s it.filePath
          it.originalFilename fs) (tempPath cfg s (pextOf it s)) = true
      · constructor
        · rw [(stepSim_move cfg w it fs s hk h1' h2).1,
            (stepSim_move cfg (fun _ => true) it fs s hk h1' h2).1]
        · rw [stepSim_move_rows cfg w it fs s hk h1' h2,
            stepSim_move_rows cfg (fun _ => true) it fs s hk h1' h2]
          simp only [if_pos rfl, List.filter_cons, List.filter_nil]
          by_cases hw : w (mkRow cfg it s
              (newFilename (uniqueBase it.relString) s (pextOf it s))
              (finalPath cfg it s)) = true
          · simp [hw]
          · simp only [Bool.not_eq_true] at hw
            simp [hw]
      · have h2' : fsExists (simulatorRun cfg s it.filePath
            it.originalFilename fs) (tempPath cfg s (pextOf it s)) = false := by
          simpa using h2
        rw [stepSim_fail cfg w it fs s hk h1' h2',
          stepSim_fail cfg (fun _ => true) it fs s hk h1' h2']
        exact ⟨rfl, rfl⟩
  · rw [stepSim_not_key cfg w it fs s hk,
      stepSim_not_key cfg (fun _ => true) it fs s hk]
    exact ⟨rfl, rfl⟩

private theorem stepOriginal_w (cfg : Cfg) (w : Row → Bool) (it : Item)
    (fs : FS) :
    (stepOriginal cfg w it fs).1 = (stepOriginal cfg (fun _ => true) it fs).1 ∧
    (stepOriginal cfg w it fs).2
      = ((stepOriginal cfg (fun _ => true) it fs).2).filter w := by
  by_cases hr : "original" ∈ cfg.simulationsToRun
  · by_cases h1 : fsExists fs (originalPath cfg it) = true
    · rw [stepOriginal_skip cfg w it fs h1,
        stepOriginal_skip cfg (fun _ => true) it fs h1]
      exact ⟨rfl, rfl⟩
    · have h1' : fsExists fs (originalPath cfg it) = false := by simpa using h1
      cases hl : fsLookup fs it.filePath with
      | none =>
        rw [stepOriginal_missing cfg w it fs hl,
          stepOriginal_missing cfg (fun _ => true) it fs hl]
        exact ⟨rfl, rfl⟩
      | some c =>
        constructor
        · rw [(stepOriginal_copy cfg w it fs c hr h1' hl).1,
            (stepOriginal_copy cfg (fun _ => true) it fs c hr h1' hl).1]
        · rw [stepOriginal_copy_rows cfg w it fs c hr h1' hl,
            stepOriginal_copy_rows cfg (fun _ => true) it fs c hr h1' hl]
          simp only [if_pos rfl, List.filter_cons, List.filter_nil]
          by_cases hw : w (mkRow cfg it "original"
              (uniqueBase it.relString ++ "_original"
                ++ splitextExt it.originalFilename)
              (originalPath cfg it)) = true
          · simp [hw]
          · simp only [Bool.not_eq_true] at hw
            simp [hw]
  · rw [stepOriginal_not_run cfg w it fs hr,
      stepOriginal_not_run cfg (fun _ => true) it fs hr]
    exact ⟨rfl, rfl⟩

private theorem runSims_w (cfg : Cfg) (w : Row → Bool) (it : Item) :
    ∀ (sims : List String) (fs : FS),
      (runSims cfg w it sims fs).1
        = (runSims cfg (fun _ => true) it sims fs).1 ∧
      (runSims cfg w it sims fs).2
        = ((runSims cfg (fun _ => true) it sims fs).2).filter w
  | [], fs => ⟨rfl, rfl⟩
  | u :: rest, fs => by
    by_cases hu : u = "original"
    · subst hu
      rw [runSims_cons_orig, runSims_cons_orig]
      exact runSims_w cfg w it rest fs
    · rw [runSims_cons_ne cfg w it u rest fs hu,
        runSims_cons_ne cfg (fun _ => true) it u rest fs hu]
      obtain ⟨hfs, hrows⟩ := stepSim_w cfg w it fs u
      rw [hfs, hrows]
      obtain ⟨rfs, rrows⟩ := runSims_w cfg w it rest
        (stepSim cfg (fun _ => true) it fs u).1
      rw [rfs, rrows, List.filter_append]
      exact ⟨rfl, rfl⟩

private theorem runImage_w (cfg : Cfg) (w : Row → Bool) (it : Item)
    (fs : FS) :
    (runImage cfg w it fs).1 = (runImage cfg (fun _ => true) it fs).1 ∧
    (runImage cfg w it fs).2
      = ((runImage cfg (fun _ => true) it fs).2).filter w := by
  obtain ⟨hfs, hrows⟩ := stepOriginal_w cfg w it fs
  rw [runImage, runImage, hfs, hrows]
  obtain ⟨rfs, rrows⟩ := runSims_w cfg w it cfg.simulationsToRun
    (stepOriginal cfg (fun _ => true) it fs).1
  rw [rfs, rrows, List.filter_append]
  exact ⟨rfl, rfl⟩

private theorem runAll_w (cfg : Cfg) (w : Row → Bool) :
    ∀ (items : List Item) (fs : FS),
      (runAll cfg w items fs).1 = (runAll cfg (fun _ => true) items fs).1 ∧
      (runAll cfg w items fs).2
        = ((runAll cfg (fun _ => true) items fs).2).filter w
  | [], fs => ⟨rfl, rfl⟩
  | it :: rest, fs => by
    rw [runAll, runAll]
    obtain ⟨hfs, hrows⟩ := runImage_w cfg w it fs
    rw [hfs, hrows]
    obtain ⟨rfs, rrows⟩ := runAll_w cfg w rest
      (runImage cfg (fun _ => true) it fs).1
    rw [rfs, rrows, List.filter_append]
    exact ⟨rfl, rfl⟩

/-- C4 counterexample: run the fixture with every `csv_writer.writerow`
raising (`w = fun _ => false`).  The run completes normally: every
requested profile is still processed — the original copy and the facebook
and tiktok artifacts all sit at their final paths — and the ledger simply
ends up empty.  Nothing propagates, nothing aborts, contradicting the
claim that a ledger append failure is fatal to the run. -/
theorem ledger_write_failure_not_fatal :
    (runAll fixCfg (fun _ => false) [fixItem] fixFs).2 = [] ∧
    fsExists (runAll fixCfg (fun _ => false) [fixItem] fixFs).1
      (originalPath fixCfg fixItem) = true ∧
    fsExists (runAll fixCfg (fun _ => false) [fixItem] fixFs).1
      (finalPath fixCfg fixItem "facebook") = true ∧
    fsExists (runAll fixCfg (fun _ => false) [fixItem] fixFs).1
      (finalPath fixCfg fixItem "tiktok") = true := by decide

/-- C4 amended: a failure while appending a row to the metadata ledger is
caught at the same per-item/per-profile boundary as transform failures and
converted into a logged skip of that row only: the run continues, the
filesystem effects (including the artifact already moved to its final
path) are exactly those of a run whose appends all succeed, and the ledger
contains exactly the rows whose appends succeeded.  (Since the artifact
remains on disk, a rerun skips the pair and the lost row is never
re-appended.) -/
theorem ledger_write_failure_caught (cfg : Cfg) (w : Row → Bool)
    (items : List Item) (fs : FS) :
    (runAll cfg w items fs).1 = (runAll cfg (fun _ => true) items fs).1 ∧
    (runAll cfg w items fs).2
      = ((runAll cfg (fun _ => true) items fs).2).filter w :=
  runAll_w cfg w items fs

/-! ## C1: the one-hot invariant of ledger rows -/

private theorem stepSim_rows (cfg : Cfg) (w : Row → Bool) (it : Item)
    (fs : FS) (s : String) :
    ∀ r ∈ (stepSim cfg w it fs s).2,
      r.simName ∈ ALL_SIMULATIONS ∧ r.oneHot = oneHotSims r.simName := by
  intro r hr
  by_cases hk : s ∈ simulationKeys
  · by_cases h1 : fsExists fs (finalPath cfg it s) = true
    · rw [stepSim_skip cfg w it fs s h1] at hr
      exact absurd hr (List.not_mem_nil r)
    · have h1' : fsExists fs (finalPath cfg it s) = false := by simpa using h1
      by_cases h2 : fsExists (simulatorRun cfg s it.filePath
          it.originalFilename fs) (tempPath cfg s (pextOf it s)) = true
      · have hrm := (stepSim_move cfg w it fs s hk h1' h2).2 r hr
        rw [hrm]
        exact ⟨keys_sub_all s hk, rfl⟩
      · have h2' : fsExists (simulatorRun cfg s it.filePath
            it.originalFilename fs) (tempPath cfg s (pextOf it s)) = false := by
          simpa using h2
        rw [stepSim_fail cfg w it fs s hk h1' h2'] at hr
        exact absurd hr (List.not_mem_nil r)
  · rw [stepSim_not_key cfg w it fs s hk] at hr
    exact absurd hr (List.not_mem_nil r)

private theorem stepOriginal_rows (cfg : Cfg) (w : Row → Bool) (it : Item)
    (fs : FS) :
    ∀ r ∈ (stepOriginal cfg w it fs).2,
      r.simName ∈ ALL_SIMULATIONS ∧ r.oneHot = oneHotSims r.simName := by
  intro r hr
  by_cases hrn : "original" ∈ cfg.simulationsToRun
  · by_cases h1 : fsExists fs (originalPath cfg it) = true
    · rw [stepOriginal_skip cfg w it fs h1] at hr
      exact absurd hr (List.not_mem_nil r)
    · have h1' : fsExists fs (originalPath cfg it) = false := by simpa using h1
      cases hl : fsLookup fs it.filePath with
      | none =>
        rw [stepOriginal_missing cfg w it fs hl] at hr
        exact absurd hr (List.not_mem_nil r)
      | some c =>
        have hrm := (stepOriginal_copy cfg w it fs c hrn h1' hl).2 r hr
        rw [hrm]
        refine ⟨?_, rfl⟩
        show ("original" : String) ∈ ALL_SIMULATIONS
        decide
  · rw [stepOriginal_not_run cfg w it fs hrn] at hr
    exact absurd hr (List.not_mem_nil r)

private theorem runSims_rows (cfg : Cfg) (w : Row → Bool) (it : Item) :
    ∀ (sims : List String) (fs : FS), ∀ r ∈ (runSims cfg w it sims fs).2,
      r.simName ∈ ALL_SIMULATIONS ∧ r.oneHot = oneHotSims r.simName
  | [], _, r, hr => absurd hr (List.not_mem_nil r)
  | u :: rest, fs, r, hr => by
    by_cases hu : u = "original"
    · subst hu
      rw [runSims_cons_orig] at hr
      exact runSims_rows cfg w it rest fs r hr
    · rw [runSims_cons_ne cfg w it u rest fs hu] at hr
      rcases List.mem_append.mp hr with h | h
      · exact stepSim_rows cfg w it fs u r h
      · exact runSims_rows cfg w it rest _ r h

private theorem runAll_rows (cfg : Cfg) (w : Row → Bool) :
    ∀ (items : List Item) (fs : FS), ∀ r ∈ (runAll cfg w items fs).2,
      r.simName ∈ ALL_SIMULATIONS ∧ r.oneHot = oneHotSims r.simName
  | [], _, r, hr => absurd hr (List.not_mem_nil r)
  | it :: rest, fs, r, hr => by
    rw [runAll] at hr
    rcases List.mem_append.mp hr with h | h
    · rw [runImage] at h
      rcases List.mem_append.mp h with h' | h'
      · exact stepOriginal_rows cfg w it fs r h'
      · exact runSims_rows cfg w it cfg.simulationsToRun _ r h'
    · exact runAll_rows cfg w rest _ r h

private theorem sum_indicator_zero (n : String) :
    ∀ l : List String, n ∉ l →
      (l.map (fun s => if s = n then 1 else 0)).sum = 0
  | [], _ => rfl
  | a :: t, h => by
    have ha : ¬a = n := fun he => h (he ▸ List.mem_cons_self a t)
    simp only [List.map_cons, List.sum_cons, if_neg ha,
      sum_indicator_zero n t (fun hm => h (List.mem_cons_of_mem a hm))]

private theorem sum_indicator_one (n : String) :
    ∀ l : List String, n ∈ l → l.Nodup →
      (l.map (fun s => if s = n then 1 else 0)).sum = 1
  | [], h, _ => absurd h (List.not_mem_nil n)
  | a :: t, h, hnd => by
    rcases List.mem_cons.mp h with rfl | hm
    · have hnt : n ∉ t := (List.nodup_cons.mp hnd).1
      simp [List.map_cons, List.sum_cons, sum_indicator_zero n t hnt]
    · have ha : ¬a = n := fun he => by
        subst he
        exact (List.nodup_cons.mp hnd).1 hm
      simp only [List.map_cons, List.sum_cons, if_neg ha,
        sum_indicator_one n t hm (List.nodup_cons.mp hnd).2]

private theorem oneHot_getElem (n : String) (i : Nat)
    (h : i < ALL_SIMULATIONS.length) :
    (oneHotSims n)[i]?
      = some (if ALL_SIMULATIONS.get ⟨i, h⟩ = n then 1 else 0) := by
  rw [oneHotSims, List.getElem?_map, List.getElem?_eq_getElem h]
  rfl

/-- C1: every ledger row appended by the orchestrator — for the
`"original"` profile or any other, and for any requested subset of
profiles, items and starting state — carries a trailing profile vector
laid out over the full fixed catalog `ALL_SIMULATIONS`, of exactly the
catalog's length, whose entries sum to exactly 1, with the `1` at the
column whose catalog entry is the profile that produced the row and `0`
everywhere else. -/
theorem ledger_rows_one_hot (cfg : Cfg) (w : Row → Bool)
    (items : List Item) (fs : FS) (row : Row)
    (hrow : row ∈ (runAll cfg w items fs).2) :
    row.simName ∈ ALL_SIMULATIONS ∧
    row.oneHot = oneHotSims row.simName ∧
    row.oneHot.length = ALL_SIMULATIONS.length ∧
    row.oneHot.sum = 1 ∧
    ∀ (i : Nat) (h : i < ALL_SIMULATIONS.length),
      row.oneHot[i]?
        = some (if ALL_SIMULATIONS.get ⟨i, h⟩ = row.simName then 1 else 0) := by
  obtain ⟨hmem, hoh⟩ := runAll_rows cfg w items fs row hrow
  refine ⟨hmem, hoh, ?_, ?_, ?_⟩
  · rw [hoh, oneHotSims, List.length_map]
  · rw [hoh, oneHotSims]
    exact sum_indicator_one row.simName ALL_SIMULATIONS hmem all_sims_nodup
  · intro i h
    rw [hoh]
    exact oneHot_getElem row.simName i h

/-- Witness for C1: the `"original"` row of the fixture run. -/
theorem ledger_rows_one_hot_witness :
    (mkRow fixCfg fixItem "original"
        (uniqueBase fixItem.relString ++ "_original"
          ++ splitextExt fixItem.originalFilename)
        (originalPath fixCfg fixItem))
      ∈ (runAll fixCfg (fun _ => true) [fixItem] fixFs).2 ∧
    ((mkRow fixCfg fixItem "original"
        (uniqueBase fixItem.relString ++ "_original"
          ++ splitextExt fixItem.originalFilename)
        (originalPath fixCfg fixItem)).simName ∈ ALL_SIMULATIONS ∧
     (mkRow fixCfg fixItem "original"
        (uniqueBase fixItem.relString ++ "_original"
          ++ splitextExt fixItem.originalFilename)
        (originalPath fixCfg fixItem)).oneHot
       = oneHotSims (mkRow fixCfg fixItem "original"
           (uniqueBase fixItem.relString ++ "_original"
             ++ splitextExt fixItem.originalFilename)
           (originalPath fixCfg fixItem)).simName ∧
     (mkRow fixCfg fixItem "original"
        (uniqueBase fixItem.relString ++ "_original"
          ++ splitextExt fixItem.originalFilename)
        (originalPath fixCfg fixItem)).oneHot.length
       = ALL_SIMULATIONS.length ∧
     (mkRow fixCfg fixItem "original"
        (uniqueBase fixItem.relString ++ "_original"
          ++ splitextExt fixItem.originalFilename)
        (originalPath fixCfg fixItem)).oneHot.sum = 1 ∧
     ∀ (i : Nat) (h : i < ALL_SIMULATIONS.length),
       (mkRow fixCfg fixItem "original"
          (uniqueBase fixItem.relString ++ "_original"
            ++ splitextExt fixItem.originalFilename)
          (originalPath fixCfg fixItem)).oneHot[i]?
         = some (if ALL_SIMULATIONS.get ⟨i, h⟩
               = (mkRow fixCfg fixItem "original"
                   (uniqueBase fixItem.relString ++ "_original"
                     ++ splitextExt fixItem.originalFilename)
                   (originalPath fixCfg fixItem)).simName
             then 1 else 0)) :=
  ⟨by decide, ledger_rows_one_hot fixCfg (fun _ => true) [fixItem] fixFs _
    (by decide)⟩

/-! ## C10: behaviour on missing inputs -/

/-- C10 counterexample: the orchestrator's per-profile branch checks only
whether the shared platform temp file exists after the simulator call.  If
a stale leftover `whatsapp/TEMPOUT.jpg` sits in the output tree (left,
e.g., by the document/mixed-case quirk of C6 or by an interrupted run),
then processing a MISSING input with `whatsapp_standard_media` moves that
stale file to the pair's final path and appends a ledger row — so, as
stated, "no artifact is moved and no row is appended for a missing input"
is false. -/
theorem missing_input_can_emit_row :
    fsLookup staleFs missingItem.filePath = none ∧
    (stepSim staleCfg (fun _ => true) missingItem staleFs
        "whatsapp_standard_media").2 ≠ [] ∧
    fsExists (stepSim staleCfg (fun _ => true) missingItem staleFs
        "whatsapp_standard_media").1
      (finalPath staleCfg missingItem "whatsapp_standard_media") = true := by
  decide

/-- C10 amended: for every profile, a missing input makes the simulator
return normally having written nothing, and — provided the profile's
shared platform temp slot holds no leftover file — the orchestrator moves
no artifact to the final path and appends no ledger row for that
(item, profile) pair: the step is a complete no-op. -/
theorem missing_input_graceful_skip (cfg : Cfg) (w : Row → Bool) (it : Item)
    (fs : FS) (s : String) (hmiss : fsLookup fs it.filePath = none)
    (htemp : fsExists fs (tempPath cfg s (pextOf it s)) = false) :
    simulatorRun cfg s it.filePath it.originalFilename fs = fs ∧
    stepSim cfg w it fs s = (fs, []) := by
  have hsim := simulatorRun_none cfg s it.filePath it.originalFilename fs hmiss
  refine ⟨hsim, ?_⟩
  by_cases hk : s ∈ simulationKeys
  · by_cases h1 : fsExists fs (finalPath cfg it s) = true
    · exact stepSim_skip cfg w it fs s h1
    · have h1' : fsExists fs (finalPath cfg it s) = false := by simpa using h1
      have h2' : fsExists (simulatorRun cfg s it.filePath
          it.originalFilename fs) (tempPath cfg s (pextOf it s)) = false := by
        rw [hsim]
        exact htemp
      rw [stepSim_fail cfg w it fs s hk h1' h2', hsim]
  · exact stepSim_not_key cfg w it fs s hk

/-- Witness for C10 amended: the facebook profile on a missing item over an
empty filesystem. -/
theorem missing_input_graceful_skip_witness :
    (fsLookup ([] : FS) missingItem.filePath = none ∧
     fsExists ([] : FS)
       (tempPath fixCfg "facebook" (pextOf missingItem "facebook")) = false) ∧
    (simulatorRun fixCfg "facebook" missingItem.filePath
        missingItem.originalFilename [] = [] ∧
     stepSim fixCfg (fun _ => true) missingItem [] "facebook" = ([], [])) :=
  ⟨⟨by decide, by decide⟩,
   missing_input_graceful_skip fixCfg (fun _ => true) missingItem []
     "facebook" (by decide) (by decide)⟩

/-! ## C6: document passthrough -/

/-- C6 counterexample: a readable input whose extension is `.JPG`.  The
whatsapp document branch copies the bytes to a temp name carrying the
LOWERCASED extension (`TEMPOUT.jpg`), while the orchestrator looks for
`TEMPOUT.JPG`; consequently no artifact appears at the pair's final path
and no row is appended — and the one file the simulator did produce does
not carry the input's original extension unchanged. -/
theorem document_uppercase_no_artifact :
    fsLookup upperFs upperItem.filePath = some [9] ∧
    splitextExt upperItem.originalFilename = ".JPG" ∧
    (stepSim upperCfg (fun _ => true) upperItem upperFs
        "whatsapp_document").2 = [] ∧
    fsExists (stepSim upperCfg (fun _ => true) upperItem upperFs
        "whatsapp_document").1
      (finalPath upperCfg upperItem "whatsapp_document") = false ∧
    fsLookup (simulatorRun upperCfg "whatsapp_document" upperItem.filePath
        upperItem.originalFilename upperFs)
      (tempPath upperCfg "whatsapp_document" ".jpg") = some [9] ∧
    (".jpg" : String) ≠ ".JPG" := by decide

/-- C6 amended: for each document-policy profile (whatsapp_document,
signal_document, telegram_document) applied to a readable input whose
extension is already lowercase and whose final artifact is not yet
present, the orchestrator places an artifact at the final path whose bytes
are byte-identical to the input's, and the final filename carries the
input's original extension unchanged
(`<uniqueBase>_<profile><originalExt>`).  For a mixed-case extension no
artifact is produced at all (see the counterexample). -/
theorem document_passthrough (cfg : Cfg) (w : Row → Bool) (it : Item)
    (fs : FS) (s : String) (content : Bytes)
    (hs : s ∈ (["whatsapp_document", "signal_document",
        "telegram_document"] : List String))
    (hread : fsLookup fs it.filePath = some content) (hlc : lcExt it)
    (hnew : fsExists fs (finalPath cfg it s) = false) :
    fsLookup (stepSim cfg w it fs s).1 (finalPath cfg it s) = some content ∧
    finalPath cfg it s
      = cfg.curatedDir ++ [s, uniqueBase it.relString ++ "_" ++ s
          ++ splitextExt it.originalFilename] := by
  have hk : s ∈ simulationKeys := by
    simp only [List.mem_cons, List.not_mem_nil, or_false] at hs
    rcases hs with rfl | rfl | rfl <;> decide
  have hd : hasDocument s = true := by
    simp only [List.mem_cons, List.not_mem_nil, or_false] at hs
    rcases hs with rfl | rfl | rfl <;> decide
  have hpx : pextOf it s = splitextExt it.originalFilename := by
    simp [pextOf, hd]
  have hfs1 : simulatorRun cfg s it.filePath it.originalFilename fs
      = fsWrite fs (tempPath cfg s (pextOf it s)) content := by
    rw [simulatorRun_doc cfg s it.filePath it.originalFilename fs content
      hread hd]
    rw [lcExt] at hlc
    rw [hlc, hpx]
  have h2 : fsExists (simulatorRun cfg s it.filePath it.originalFilename fs)
      (tempPath cfg s (pextOf it s)) = true := by
    rw [hfs1, fsExists, fsLookup_write_self]
    rfl
  constructor
  · rw [(stepSim_move cfg w it fs s hk hnew h2).1]
    refine fsLookup_move_dst _ _ _ content ?_
    rw [hfs1, fsLookup_write_self]
  · rw [finalPath, newFilename, hpx]

/-- Witness for C6 amended: the whatsapp_document profile on the lowercase
fixture item. -/
theorem document_passthrough_witness :
    (("whatsapp_document" : String) ∈ (["whatsapp_document",
        "signal_document", "telegram_document"] : List String) ∧
     fsLookup fixFs fixItem.filePath = some [1, 2, 3] ∧ lcExt fixItem ∧
     fsExists fixFs (finalPath fixCfg fixItem "whatsapp_document") = false) ∧
    (fsLookup (stepSim fixCfg (fun _ => true) fixItem fixFs
        "whatsapp_document").1
       (finalPath fixCfg fixItem "whatsapp_document") = some [1, 2, 3] ∧
     finalPath fixCfg fixItem "whatsapp_document"
       = fixCfg.curatedDir ++ ["whatsapp_document",
           uniqueBase fixItem.relString ++ "_" ++ "whatsapp_document"
             ++ splitextExt fixItem.originalFilename]) :=
  ⟨⟨by decide, by decide, by decide, by decide⟩,
   document_passthrough fixCfg (fun _ => true) fixItem fixFs
     "whatsapp_document" [1, 2, 3] (by decide) (by decide) (by decide)
     (by decide)⟩

/-! ## C9: determinism of the sampler -/

/-- C9: sampling is a deterministic function of the seed, the source
contents and the target count.  For the grouped local mode the selection
is moreover independent of the filesystem's `os.scandir` enumeration
order — the source sorts the model directories — so two invocations, each
from the seeded state `random.seed(42)` installs, over the same contents
(the same set of directories with the same per-directory file lists) and
the same target count return the same selection in the same order; the hub
mode likewise returns the same selection on identical label contents. -/
theorem sampler_deterministic (rng : RandomSampler) (target : Nat)
    (src₁ src₂ : LocalSource) (hdirs : src₁.dirs.Perm src₂.dirs)
    (hfiles : src₁.filesOf = src₂.filesOf) (labels : List (List Nat))
    (targetId : Nat) (split : String) :
    get_non_huggingface_dataset_paths rng src₁ target (rng.seed 42)
      = get_non_huggingface_dataset_paths rng src₂ target (rng.seed 42) ∧
    get_hf_dataset_paths rng labels targetId split target (rng.seed 42)
      = get_hf_dataset_paths rng labels targetId split target (rng.seed 42) := by
  refine ⟨?_, rfl⟩
  rw [get_non_huggingface_dataset_paths, get_non_huggingface_dataset_paths,
    hfiles]
  have hsort : src₁.dirs.mergeSort = src₂.dirs.mergeSort :=
    List.eq_of_perm_of_sorted
      ((List.mergeSort_perm _ _).trans
        (hdirs.trans (List.mergeSort_perm _ _).symm))
      (List.sorted_mergeSort' _) (List.sorted_mergeSort' _)
  rw [hsort]

/-- Witness for C9: two scandir orders of the same two-directory source. -/
theorem sampler_deterministic_witness :
    (fixSrc1.dirs.Perm fixSrc2.dirs ∧ fixSrc1.filesOf = fixSrc2.filesOf) ∧
    (get_non_huggingface_dataset_paths fixRng fixSrc1 5 (fixRng.seed 42)
       = get_non_huggingface_dataset_paths fixRng fixSrc2 5 (fixRng.seed 42) ∧
     get_hf_dataset_paths fixRng [[1], [2]] 1 "val" 5 (fixRng.seed 42)
       = get_hf_dataset_paths fixRng [[1], [2]] 1 "val" 5 (fixRng.seed 42)) :=
  ⟨⟨List.Perm.swap "a" "b" [], rfl⟩,
   sampler_deterministic fixRng 5 fixSrc1 fixSrc2 (List.Perm.swap "a" "b" [])
     rfl [[1], [2]] 1 "val"⟩

end Pipeline
